import Mathlib

/-!
# Ball simulation: quadtree index and collision detection

A shallow embedding of `src/ball_simulation/main.cpp`.

Conventions of the embedding.

* C++ `int` is modelled by `Int`. `/` and `%` of the source truncate toward zero
  and are `Int.tdiv` and `Int.tmod` here. The overlap test of lines 276-280
  squares coordinate differences, which leaves the range of a 32-bit `int`
  already for differences from 46341 up; its arithmetic is modelled with the
  wrap-around of the compiled program (`wrap32`). The other `int` operations
  (additions of a speed, a diameter or half a width) are modelled without
  overflow, which for them needs values next to `2^31`.
* The globals `width` and `height` are never assigned after initialisation; they
  are explicit parameters.
* The global `vector<Ball> balls` is a `List Ball`. A `Ball*` held by the tree
  always points into that vector, so it is modelled by the index of the element
  (`otherBall - &balls[0]` in the source); dereferencing reads the store.
* The draw `rand() / RAND_MAX` of `moveBalls` and its two floating-point
  comparisons against `turningParameter` are modelled by their three possible
  outcomes (`Draw`); the environment supplies one outcome per ball and tick.
* The OpenMP loops of `checkCollisions` are modelled by their sequential
  execution in index order (`detect_order_irrelevant`: any other order of the
  iterations gives the same flags). Threads and their interleavings are not
  modelled.
* `rand()` in `createBalls` and the constructor is a stream `rands` of the values
  it returns.
* `insert` is defined by recursion on the tree; `insertFuel` writes out the
  recursion of the source with a bound on nested calls, and the two agree
  whenever the bound suffices.
-/

namespace BallSim

/-! ## Ball -/

/-- The class `Ball` (lines 31-81). `position` is the array `position[2]`. -/
structure Ball where
  diameter : Int
  position : Int × Int
  type : String
  direction : Int
  turningParameter : ℚ
  speed : Int
deriving Inhabited

/-- The parameterized constructor `Ball::Ball` (lines 49-55); `dir` is the value
of `rand() % 8`. -/
def Ball.create (diam posX posY : Int) (ballType : String) (turnParam : ℚ) (dir : Int) : Ball :=
  { diameter := diam
    position := (posX, posY)
    type := ballType
    direction := dir
    turningParameter := turnParam
    speed := if ballType = "aggressive" then 2 else 1 }

/-- The `switch (direction)` of `Ball::move` (lines 64-73). -/
def Ball.advance (direction speed : Int) (p : Int × Int) : Int × Int :=
  if direction = 0 then (p.1, p.2 - speed)
  else if direction = 1 then (p.1 + speed, p.2 - speed)
  else if direction = 2 then (p.1 + speed, p.2)
  else if direction = 3 then (p.1 + speed, p.2 + speed)
  else if direction = 4 then (p.1, p.2 + speed)
  else if direction = 5 then (p.1 - speed, p.2 + speed)
  else if direction = 6 then (p.1 - speed, p.2)
  else if direction = 7 then (p.1 - speed, p.2 - speed)
  else p

/-- The four clamping statements of `Ball::move` (lines 76-79), one axis:
first the lower clamp, then the upper clamp. -/
def Ball.clamp (lo hi v : Int) : Int :=
  let v1 := if v < lo then lo else v
  if v1 > hi then hi else v1

/-- `Ball::move` (lines 58-80). -/
def Ball.move (width height : Int) (b : Ball) : Ball :=
  let r := b.diameter.tdiv 2
  let direction :=
    if b.position.1 ≥ width - r ∨ b.position.2 ≤ r ∨
       b.position.1 ≤ r ∨ b.position.2 ≥ height - r
    then (b.direction + 4).tmod 8 else b.direction
  let p := Ball.advance direction b.speed b.position
  { b with
    direction := direction
    position := (Ball.clamp r (width - r) p.1, Ball.clamp r (height - r) p.2) }

/-! ## Rectangle -/

/-- The class `Rectangle` (lines 86-106). -/
structure Rectangle where
  x : Int
  y : Int
  width : Int
  height : Int
deriving DecidableEq, Inhabited

/-- `Rectangle::containsBall` (lines 95-99). -/
def Rectangle.containsBall (r : Rectangle) (ball : Ball) : Bool :=
  let xb := ball.position.1
  let yb := ball.position.2
  decide (xb > r.x ∧ xb < r.x + r.width ∧ yb > r.y ∧ yb < r.y + r.height)

/-- `Rectangle::intersects` (lines 102-105). -/
def Rectangle.intersects (r range : Rectangle) : Bool :=
  !(decide (range.x > r.x + r.width ∨ range.x + range.width < r.x ∨
      range.y > r.y + r.height ∨ range.y + range.height < r.y))

/-! ## QuadTree -/

/-- `QuadTree::CAPACITY` (line 111). -/
def CAPACITY : Nat := 4

/-- The class `QuadTree` (lines 109-170). A node with `divided == false` and null
child pointers is `leaf`; a node with `divided == true` and its four children
`northeast`, `northwest`, `southeast`, `southwest` is `branch`. `balls` holds the
stored `Ball*` as indices into the store. -/
inductive QuadTree where
  | leaf (boundary : Rectangle) (balls : List Nat)
  | branch (boundary : Rectangle) (balls : List Nat)
      (northeast northwest southeast southwest : QuadTree)
deriving DecidableEq, Inhabited

/-- Dereference of a `Ball*` that points at element `p` of the store. The program
only forms pointers `&balls[i]` with `i < balls.size()`; for other `p` the
function returns the default ball so that it is total. -/
def deref (bs : List Ball) (p : Nat) : Ball := bs.getD p default

namespace QuadTree

/-- The constructor `QuadTree(boundary)` (lines 124-125). -/
def new (boundary : Rectangle) : QuadTree := leaf boundary []

/-- The member `boundary`. -/
def boundary : QuadTree → Rectangle
  | leaf b _ => b
  | branch b _ _ _ _ _ => b

/-- The member `balls`. -/
def balls : QuadTree → List Nat
  | leaf _ bl => bl
  | branch _ bl _ _ _ _ => bl

/-- The member `divided`. -/
def divided : QuadTree → Bool
  | leaf _ _ => false
  | branch _ _ _ _ _ _ => true

/-- `QuadTree::subdivide` (lines 143-155): the four children are freshly
constructed, also when the node already had children. -/
def subdivide (t : QuadTree) : QuadTree :=
  let x := t.boundary.x
  let y := t.boundary.y
  let w := t.boundary.width.tdiv 2
  let h := t.boundary.height.tdiv 2
  branch t.boundary t.balls
    (new ⟨x + w, y, w, h⟩) (new ⟨x, y, w, h⟩) (new ⟨x + w, y + h, w, h⟩) (new ⟨x, y + h, w, h⟩)

/-- Lines 135-139 of `QuadTree::insert`: the children are tried in the order
northeast, northwest, southeast, southwest; `ine` .. `isw` are the results
(return value, child afterwards) of the call on each child, and a child after
the first accepting one is not called and keeps its state. -/
def tryChildren (b : Rectangle) (bl : List Nat) (nw se sw : QuadTree)
    (ine inw ise isw : Bool × QuadTree) : Bool × QuadTree :=
  if ine.1 then (true, branch b bl ine.2 nw se sw)
  else if inw.1 then (true, branch b bl ine.2 inw.2 se sw)
  else if ise.1 then (true, branch b bl ine.2 inw.2 ise.2 sw)
  else if isw.1 then (true, branch b bl ine.2 inw.2 ise.2 isw.2)
  else (false, branch b bl ine.2 inw.2 ise.2 isw.2)

/-- `QuadTree::insert` called on a node that `subdivide` has just constructed:
its `balls` is empty, so `balls.size() < CAPACITY` holds and lines 129-133 decide. -/
def insertNew (bs : List Ball) (boundary : Rectangle) (ball : Nat) : Bool × QuadTree :=
  if !(boundary.containsBall (deref bs ball)) then (false, new boundary)
  else (true, leaf boundary [ball])

/-- `QuadTree::insert` (lines 128-140): the return value and the node afterwards.
In the `leaf` case line 134 subdivides and the recursive calls go to the fresh
children (`insertNew`, see `insert_new`). -/
def insert (bs : List Ball) : QuadTree → Nat → Bool × QuadTree
  | leaf b bl, ball =>
    if !(b.containsBall (deref bs ball)) then (false, leaf b bl)
    else if bl.length < CAPACITY then (true, leaf b (bl ++ [ball]))
    else
      let x := b.x
      let y := b.y
      let w := b.width.tdiv 2
      let h := b.height.tdiv 2
      tryChildren b bl (new ⟨x, y, w, h⟩) (new ⟨x + w, y + h, w, h⟩) (new ⟨x, y + h, w, h⟩)
        (insertNew bs ⟨x + w, y, w, h⟩ ball) (insertNew bs ⟨x, y, w, h⟩ ball)
        (insertNew bs ⟨x + w, y + h, w, h⟩ ball) (insertNew bs ⟨x, y + h, w, h⟩ ball)
  | branch b bl ne nw se sw, ball =>
    if !(b.containsBall (deref bs ball)) then (false, branch b bl ne nw se sw)
    else if bl.length < CAPACITY then (true, branch b (bl ++ [ball]) ne nw se sw)
    else
      tryChildren b bl nw se sw
        (insert bs ne ball) (insert bs nw ball) (insert bs se ball) (insert bs sw ball)

/-- `QuadTree::query` (lines 158-169): `found` after the call. -/
def query (bs : List Ball) : QuadTree → Rectangle → List Nat → List Nat
  | leaf b bl, range, found =>
    if !(b.intersects range) then found
    else found ++ bl.filter (fun ball => range.containsBall (deref bs ball))
  | branch b bl ne nw se sw, range, found =>
    if !(b.intersects range) then found
    else
      let found := found ++ bl.filter (fun ball => range.containsBall (deref bs ball))
      let found := query bs ne range found
      let found := query bs nw range found
      let found := query bs se range found
      query bs sw range found

end QuadTree

/-- `insertBallsIntoQuadTree` (lines 173-177): inserts `&balls[i]` for
`i = from, from+1, ...`, one per remaining element, ignoring the return values. -/
def insertBallsFrom (bs : List Ball) : Nat → List Ball → QuadTree → QuadTree
  | _, [], t => t
  | i, _ :: rest, t => insertBallsFrom bs (i + 1) rest (QuadTree.insert bs t i).2

/-- `insertBallsIntoQuadTree` (lines 173-177). -/
def insertBallsIntoQuadTree (bs : List Ball) (t : QuadTree) : QuadTree :=
  insertBallsFrom bs 0 bs t

/-! ## Movement -/

/-- Outcome of the comparisons of the draw `x` with `turningParameter` in
`moveBalls` (lines 244-250): `low` is `x < turningParameter`; `high` is
`x > 1 - turningParameter` with the first comparison false; `mid` is neither. -/
inductive Draw where
  | low
  | high
  | mid
deriving DecidableEq, Inhabited

/-- The body of the loop of `moveBalls` (lines 244-253) for one ball. -/
def moveBall (width height : Int) (x : Draw) (b : Ball) : Ball :=
  let b1 : Ball :=
    match x with
    | Draw.low => { b with direction := (b.direction + 1).tmod 8 }
    | Draw.high => { b with direction := (b.direction + 7).tmod 8 }
    | Draw.mid => b
  if b1.type ≠ "dead" then b1.move width height else b1

/-- The loop of `moveBalls` from index `i` on. -/
def moveBallsFrom (width height : Int) (draws : Nat → Draw) : Nat → List Ball → List Ball
  | _, [] => []
  | i, b :: rest => moveBall width height (draws i) b :: moveBallsFrom width height draws (i + 1) rest

/-- `moveBalls` (lines 242-255); `draws i` is the outcome of the draw made for
ball `i`. -/
def moveBalls (width height : Int) (draws : Nat → Draw) (bs : List Ball) : List Ball :=
  moveBallsFrom width height draws 0 bs

/-! ## Collision detection -/

/-- The value of a 32-bit `int` computation whose mathematical result is `v`:
two's complement wrap-around into `[-2^31, 2^31)`. -/
def wrap32 (v : Int) : Int := (v + 2147483648) % 4294967296 - 2147483648

/-- The test of lines 276-280 of `checkCollisions` on `balls[i]` and `*otherBall`.
Every subtraction, product and sum of these lines is an `int` operation and
wraps around (`wrap32`), as it does in the compiled program: the squares leave
the range of `int` for differences from 46341 up. -/
def overlap (a o : Ball) : Bool :=
  let deltaX := wrap32 (a.position.1 - o.position.1)
  let deltaY := wrap32 (a.position.2 - o.position.2)
  let distanceSquared := wrap32 (wrap32 (deltaX * deltaX) + wrap32 (deltaY * deltaY))
  let combinedRadius := (wrap32 (a.diameter + o.diameter)).tdiv 2
  decide (distanceSquared ≤ wrap32 (combinedRadius * combinedRadius))

/-- The query rectangle built at line 271. -/
def rangeOf (a : Ball) : Rectangle :=
  ⟨a.position.1 - a.diameter, a.position.2 - a.diameter, a.diameter * 2, a.diameter * 2⟩

/-- The loop over `found` (lines 274-285) for ball `i`, on the array `ballIsDead`. -/
def scanFound (bs : List Ball) (i : Nat) : List Nat → List Bool → List Bool
  | [], ballIsDead => ballIsDead
  | otherBall :: rest, ballIsDead =>
    if otherBall ≠ i ∧ (deref bs otherBall).type ≠ "dead" then
      if overlap (deref bs i) (deref bs otherBall) then
        scanFound bs i rest ((ballIsDead.set i true).set otherBall true)
      else scanFound bs i rest ballIsDead
    else scanFound bs i rest ballIsDead

/-- One iteration of the detection loop (lines 269-286). -/
def detectBall (bs : List Ball) (t : QuadTree) (ballIsDead : List Bool) (i : Nat) : List Bool :=
  if (deref bs i).type ≠ "dead" then
    scanFound bs i (t.query bs (rangeOf (deref bs i)) []) ballIsDead
  else ballIsDead

/-- The detection pass (lines 260-288): `ballIsDead` after the loop. -/
def detect (bs : List Ball) (t : QuadTree) : List Bool :=
  (List.range bs.length).foldl (detectBall bs t) (List.replicate bs.length false)

/-- The commit pass (lines 290-295) from index `i` on. -/
def commitFrom (ballIsDead : List Bool) : Nat → List Ball → List Ball
  | _, [] => []
  | i, b :: rest =>
    (if ballIsDead.getD i false then { b with type := "dead" } else b) ::
      commitFrom ballIsDead (i + 1) rest

/-- `checkCollisions` (lines 258-296): the store afterwards. -/
def checkCollisions (bs : List Ball) (t : QuadTree) : List Ball :=
  commitFrom (detect bs t) 0 bs

/-! ## Tick -/

/-- `makeDecision` (lines 206-230): the store and the tree afterwards. The tree
passed in is overwritten at line 210. -/
def makeDecision (width height : Int) (draws : Nat → Draw)
    (s : List Ball × QuadTree) : List Ball × QuadTree :=
  let quadTree := QuadTree.new ⟨0, 0, width, height⟩
  let balls := moveBalls width height draws s.1
  let quadTree := insertBallsIntoQuadTree balls quadTree
  let balls := checkCollisions balls quadTree
  (balls, quadTree)

/-- The first `n` iterations of the loop of `main` (lines 193-198) on the
simulation state; `draws k` gives the draws of tick `k`. -/
def runTicks (width height : Int) (draws : Nat → Nat → Draw) :
    Nat → List Ball × QuadTree → List Ball × QuadTree
  | 0, s => s
  | n + 1, s => makeDecision width height (draws n) (runTicks width height draws n s)

/-! ## Creation, and insertion with bounded recursion -/

/-- `createBalls` (lines 233-239) after `done` iterations, with `n` iterations
left: each iteration draws `posX = rand() % width`, `posY = rand() % height`,
and the constructor (lines 49-55) draws `direction = rand() % 8` and appends
the ball to the global store. `rands k` is the value of the `k`-th call of
`rand()`; iteration `done` makes the calls `3 * done`, `3 * done + 1` and
`3 * done + 2`. The literal `0.02` is the turning parameter. The result is
`none` when an iteration divides by zero (`rand() % width` with `width == 0` at
line 235, `rand() % height` with `height == 0` at line 236): the program does
not return from that. -/
def createBallsFrom (width height diameter : Int) (type : String) (rands : Nat → Int) :
    Nat → Nat → List Ball → Option (List Ball)
  | 0, _, balls => some balls
  | n + 1, done, balls =>
    if width = 0 then none
    else
      let posX := (rands (3 * done)).tmod width
      if height = 0 then none
      else
        let posY := (rands (3 * done + 1)).tmod height
        let newBall :=
          Ball.create diameter posX posY type (1 / 50) ((rands (3 * done + 2)).tmod 8)
        createBallsFrom width height diameter type rands n (done + 1) (balls ++ [newBall])

/-- `createBalls` (lines 233-239): the global store afterwards, or `none` when
the call does not return (division by zero). The loop runs `numberOfBalls`
times, not at all when `numberOfBalls` is negative. -/
def createBalls (width height : Int) (numberOfBalls diameter : Int) (type : String)
    (rands : Nat → Int) (balls : List Ball) : Option (List Ball) :=
  createBallsFrom width height diameter type rands numberOfBalls.toNat 0 balls

namespace QuadTree

/-- Lines 135-139 of `QuadTree::insert` with the recursive calls made through
`call`, which returns `none` when the call does not return: a child is called
only when every earlier child returned false. -/
def tryChildrenFuel (call : QuadTree → Option (Bool × QuadTree)) (b : Rectangle)
    (bl : List Nat) (ne nw se sw : QuadTree) : Option (Bool × QuadTree) :=
  match call ne with
  | none => none
  | some ine =>
    if ine.1 then some (true, branch b bl ine.2 nw se sw)
    else
      match call nw with
      | none => none
      | some inw =>
        if inw.1 then some (true, branch b bl ine.2 inw.2 se sw)
        else
          match call se with
          | none => none
          | some ise =>
            if ise.1 then some (true, branch b bl ine.2 inw.2 ise.2 sw)
            else
              match call sw with
              | none => none
              | some isw =>
                if isw.1 then some (true, branch b bl ine.2 inw.2 ise.2 isw.2)
                else some (false, branch b bl ine.2 inw.2 ise.2 isw.2)

/-- `QuadTree::insert` (lines 128-140) with the recursion of the source written
out and bounded: `fuel` is the number of nested calls of `insert` allowed, and
the result is `none` when that many do not suffice. In the `leaf` case line 134
subdivides and the calls go to the new children. -/
def insertFuel (bs : List Ball) : Nat → QuadTree → Nat → Option (Bool × QuadTree)
  | 0, _, _ => none
  | fuel + 1, leaf b bl, ball =>
    if !(b.containsBall (deref bs ball)) then some (false, leaf b bl)
    else if bl.length < CAPACITY then some (true, leaf b (bl ++ [ball]))
    else
      let x := b.x
      let y := b.y
      let w := b.width.tdiv 2
      let h := b.height.tdiv 2
      tryChildrenFuel (fun c => insertFuel bs fuel c ball) b bl
        (new ⟨x + w, y, w, h⟩) (new ⟨x, y, w, h⟩) (new ⟨x + w, y + h, w, h⟩) (new ⟨x, y + h, w, h⟩)
  | fuel + 1, branch b bl ne nw se sw, ball =>
    if !(b.containsBall (deref bs ball)) then some (false, branch b bl ne nw se sw)
    else if bl.length < CAPACITY then some (true, branch b (bl ++ [ball]) ne nw se sw)
    else tryChildrenFuel (fun c => insertFuel bs fuel c ball) b bl ne nw se sw

end QuadTree

/-! ## Specification vocabulary

Predicates and derived operations in which the properties below are stated. -/

namespace QuadTree

/-- All references stored in the subtree, in the order in which `query` visits them. -/
def refs : QuadTree → List Nat
  | leaf _ bl => bl
  | branch _ bl ne nw se sw => bl ++ (refs ne ++ (refs nw ++ (refs se ++ refs sw)))

/-- Every reference stored in a subtree lies strictly inside the rectangle of the
root of that subtree, at every node. -/
def Inside (bs : List Ball) : QuadTree → Prop
  | leaf b bl => ∀ p ∈ bl, b.containsBall (deref bs p) = true
  | branch b bl ne nw se sw =>
    (∀ p ∈ refs (branch b bl ne nw se sw), b.containsBall (deref bs p) = true) ∧
      Inside bs ne ∧ Inside bs nw ∧ Inside bs se ∧ Inside bs sw

end QuadTree

/-- The tree after the calls `insert(&balls[p])` for `p` in `ps`, in order, on
the tree `t` (return values dropped). -/
def insertSeq (bs : List Ball) (t : QuadTree) (ps : List Nat) : QuadTree :=
  ps.foldl (fun t p => (QuadTree.insert bs t p).2) t

/-- Ball `i` is alive, the query around it returns `o`, and `o` passes the tests
of lines 275-280: the condition under which lines 281-282 run for the pair. -/
def Hit (bs : List Ball) (t : QuadTree) (i o : Nat) : Prop :=
  (deref bs i).type ≠ "dead" ∧ o ∈ t.query bs (rangeOf (deref bs i)) [] ∧ o ≠ i ∧
    (deref bs o).type ≠ "dead" ∧ overlap (deref bs i) (deref bs o) = true

/-- The ball's centre lies on one of the four lines that carry the sides of `r`. -/
def Rectangle.onLine (r : Rectangle) (ball : Ball) : Bool :=
  decide (ball.position.1 = r.x ∨ ball.position.1 = r.x + r.width ∨
    ball.position.2 = r.y ∨ ball.position.2 = r.y + r.height)

namespace QuadTree

/-- The ball's centre lies on a boundary line of some node of the tree. -/
def onBoundaryLine : QuadTree → Ball → Bool
  | leaf b _, ball => b.onLine ball
  | branch b _ ne nw se sw, ball =>
    b.onLine ball || onBoundaryLine ne ball || onBoundaryLine nw ball ||
      onBoundaryLine se ball || onBoundaryLine sw ball

/-- The four children of a divided node, in the order northeast, northwest,
southeast, southwest. -/
def children : QuadTree → List QuadTree
  | leaf _ _ => []
  | branch _ _ ne nw se sw => [ne, nw, se, sw]

/-- The children of every divided node have the rectangles that `subdivide`
gives them. -/
def Quadrants : QuadTree → Prop
  | leaf _ _ => True
  | branch b _ ne nw se sw =>
    ne.boundary = ⟨b.x + b.width.tdiv 2, b.y, b.width.tdiv 2, b.height.tdiv 2⟩ ∧
    nw.boundary = ⟨b.x, b.y, b.width.tdiv 2, b.height.tdiv 2⟩ ∧
    se.boundary = ⟨b.x + b.width.tdiv 2, b.y + b.height.tdiv 2, b.width.tdiv 2, b.height.tdiv 2⟩ ∧
    sw.boundary = ⟨b.x, b.y + b.height.tdiv 2, b.width.tdiv 2, b.height.tdiv 2⟩ ∧
    Quadrants ne ∧ Quadrants nw ∧ Quadrants se ∧ Quadrants sw

/-- Decision procedure for `Inside`. -/
def Inside.dec (bs : List Ball) : (t : QuadTree) → Decidable (Inside bs t)
  | leaf b bl => by unfold Inside; infer_instance
  | branch b bl ne nw se sw =>
    have := Inside.dec bs ne
    have := Inside.dec bs nw
    have := Inside.dec bs se
    have := Inside.dec bs sw
    by unfold Inside; infer_instance

instance (bs : List Ball) (t : QuadTree) : Decidable (Inside bs t) := Inside.dec bs t

/-- Decision procedure for `Quadrants`. -/
def Quadrants.dec : (t : QuadTree) → Decidable (Quadrants t)
  | leaf b bl => by unfold Quadrants; infer_instance
  | branch b bl ne nw se sw =>
    have := Quadrants.dec ne
    have := Quadrants.dec nw
    have := Quadrants.dec se
    have := Quadrants.dec sw
    by unfold Quadrants; infer_instance

instance (t : QuadTree) : Decidable (Quadrants t) := Quadrants.dec t

end QuadTree

/-- The four statements of `makeDecision` that act on the simulation state. -/
inductive Op where
  | reset
  | move (draws : Nat → Draw)
  | insertAll
  | check

/-- One statement of `makeDecision` on the state (store, tree): line 210, 214,
218 or 222. -/
def step (width height : Int) : Op → List Ball × QuadTree → List Ball × QuadTree
  | Op.reset, s => (s.1, QuadTree.new ⟨0, 0, width, height⟩)
  | Op.move draws, s => (moveBalls width height draws s.1, s.2)
  | Op.insertAll, s => (s.1, insertBallsIntoQuadTree s.1 s.2)
  | Op.check, s => (checkCollisions s.1 s.2, s.2)

/-- The `k`-th operation of a run: tick `k / 4`, statement `k % 4`. -/
def opAt (draws : Nat → Nat → Draw) (k : Nat) : Op :=
  if k % 4 = 0 then Op.reset
  else if k % 4 = 1 then Op.move (draws (k / 4))
  else if k % 4 = 2 then Op.insertAll
  else Op.check

/-- The state after the first `k` operations of a run. -/
def runOps (width height : Int) (draws : Nat → Nat → Draw) :
    Nat → List Ball × QuadTree → List Ball × QuadTree
  | 0, s => s
  | k + 1, s => step width height (opAt draws k) (runOps width height draws k s)

/-- Particle `i` of the store is dead. -/
def isDead (bs : List Ball) (i : Nat) : Bool :=
  match bs[i]? with
  | some b => decide (b.type = "dead")
  | none => false

/-- Rectangle `c` lies within rectangle `r`. -/
def Rectangle.within (c r : Rectangle) : Prop :=
  r.x ≤ c.x ∧ c.x + c.width ≤ r.x + r.width ∧ r.y ≤ c.y ∧ c.y + c.height ≤ r.y + r.height

/-- The tree that `makeDecision` builds from the moved store (lines 210, 218). -/
def tickTree (width height : Int) (moved : List Ball) : QuadTree :=
  insertBallsIntoQuadTree moved (QuadTree.new ⟨0, 0, width, height⟩)

instance (c r : Rectangle) : Decidable (c.within r) := by
  unfold Rectangle.within
  infer_instance

instance (bs : List Ball) (t : QuadTree) (i o : Nat) : Decidable (Hit bs t i o) := by
  unfold Hit
  infer_instance

namespace QuadTree

/-- The node reached from `t` by following `path`, a list of child positions
(0 northeast, 1 northwest, 2 southeast, 3 southwest). -/
def nodeAt : QuadTree → List Nat → Option QuadTree
  | t, [] => some t
  | leaf _ _, _ :: _ => none
  | branch _ _ ne nw se sw, k :: ks =>
    if k = 0 then nodeAt ne ks
    else if k = 1 then nodeAt nw ks
    else if k = 2 then nodeAt se ks
    else if k = 3 then nodeAt sw ks
    else none

/-- No node of the tree holds more than `CAPACITY` references. -/
def Capped : QuadTree → Prop
  | leaf _ bl => bl.length ≤ CAPACITY
  | branch _ bl ne nw se sw =>
    bl.length ≤ CAPACITY ∧ Capped ne ∧ Capped nw ∧ Capped se ∧ Capped sw

/-- The query in the words of the specification (section 4.1): first append
every reference held directly by this node whose position falls strictly inside
`range`; then, only if the node's rectangle intersects `range`, recurse into the
four children (if subdivided). -/
def querySpec (bs : List Ball) : QuadTree → Rectangle → List Nat → List Nat
  | leaf _ bl, range, found =>
    found ++ bl.filter (fun ball => range.containsBall (deref bs ball))
  | branch b bl ne nw se sw, range, found =>
    let found := found ++ bl.filter (fun ball => range.containsBall (deref bs ball))
    if b.intersects range then
      let found := querySpec bs ne range found
      let found := querySpec bs nw range found
      let found := querySpec bs se range found
      querySpec bs sw range found
    else found

end QuadTree

/-- How many of the calls `insert(&balls[p])`, `p` in `ps`, made in order on the
tree `t`, were calls for the reference `q` that returned true. -/
def insertedCount (bs : List Ball) : QuadTree → List Nat → Nat → Nat
  | _, [], _ => 0
  | t, p :: ps, q =>
    (if (QuadTree.insert bs t p).1 = true ∧ q = p then 1 else 0) +
      insertedCount bs (QuadTree.insert bs t p).2 ps q

namespace QuadTree

/-- Number of nodes on the longest path from the node down to a leaf. -/
def height : QuadTree → Nat
  | leaf _ _ => 1
  | branch _ _ ne nw se sw => 1 + max (max (height ne) (height nw)) (max (height se) (height sw))

end QuadTree

/-- The value `v` lies in the range of a 32-bit `int`. -/
def fits32 (v : Int) : Bool := decide (-2147483648 ≤ v ∧ v ≤ 2147483647)

/-- None of the `int` operations of lines 276-280 overflows for the pair: the two
coordinate differences, their squares, the sum of the squares, the sum of the
diameters and the square of the combined radius all lie in the 32-bit range. -/
def overlapFits (a o : Ball) : Bool :=
  fits32 (a.position.1 - o.position.1) && fits32 (a.position.2 - o.position.2) &&
  fits32 ((a.position.1 - o.position.1) * (a.position.1 - o.position.1)) &&
  fits32 ((a.position.2 - o.position.2) * (a.position.2 - o.position.2)) &&
  fits32 ((a.position.1 - o.position.1) * (a.position.1 - o.position.1) +
    (a.position.2 - o.position.2) * (a.position.2 - o.position.2)) &&
  fits32 (a.diameter + o.diameter) &&
  fits32 ((a.diameter + o.diameter).tdiv 2 * (a.diameter + o.diameter).tdiv 2)

/-- The ball's coordinates are at most 16383 and its diameter at most 46340 in
absolute value. For two such balls no operation of lines 276-280 leaves the
range of a 32-bit `int` (`overlapFits_of_small`). -/
def Ball.small (b : Ball) : Bool :=
  decide ((-16383 ≤ b.position.1 ∧ b.position.1 ≤ 16383) ∧
    (-16383 ≤ b.position.2 ∧ b.position.2 ≤ 16383) ∧
    (-46340 ≤ b.diameter ∧ b.diameter ≤ 46340))

/-- The direction left by the turn of lines 245-250 of `moveBalls` for the draw
outcome `x`. -/
def turnDirection (x : Draw) (direction : Int) : Int :=
  match x with
  | Draw.low => (direction + 1).tmod 8
  | Draw.high => (direction + 7).tmod 8
  | Draw.mid => direction

/-! ## Concrete stores

Inputs at which the properties below are evaluated. -/

/-- Two balls as `createBalls` makes them (diameter 10, type "normal", speed 1,
heading east), centres 10 apart on the line y = 50. -/
def touchingStore : List Ball :=
  [Ball.create 10 40 50 "normal" (1 / 50) 2, Ball.create 10 50 50 "normal" (1 / 50) 2]

/-- The first particle of Scenario A: diameter 10 at (40,50), speed 0. -/
def scenarioA1 : Ball :=
  { diameter := 10, position := (40, 50), type := "normal", direction := 0,
    turningParameter := 0, speed := 0 }

/-- The second particle of Scenario A: diameter 10 at (45,50), speed 0. -/
def scenarioA2 : Ball :=
  { diameter := 10, position := (45, 50), type := "normal", direction := 3,
    turningParameter := 0, speed := 0 }

/-- The single particle of Scenario B at the corner (45, 5), heading north-east. -/
def scenarioBBall : Ball := Ball.create 10 45 5 "normal" (1 / 50) 1

/-- Five balls of diameter 1 on the line y = 300 at x = 496 .. 500, a cluster
inside a 10 x 10 region of the 1000 x 1000 arena; the last one is on the line
x = 500. -/
def seamStore : List Ball :=
  [Ball.create 1 496 300 "normal" (1 / 50) 0, Ball.create 1 497 300 "normal" (1 / 50) 0,
   Ball.create 1 498 300 "normal" (1 / 50) 0, Ball.create 1 499 300 "normal" (1 / 50) 0,
   Ball.create 1 500 300 "normal" (1 / 50) 0]

/-- Five balls of diameter 1 clustered around (203, 304). -/
def clusterStore : List Ball :=
  [Ball.create 1 200 300 "normal" (1 / 50) 0, Ball.create 1 203 301 "normal" (1 / 50) 0,
   Ball.create 1 205 309 "normal" (1 / 50) 0, Ball.create 1 201 304 "normal" (1 / 50) 0,
   Ball.create 1 210 310 "normal" (1 / 50) 0]

/-- A store of four balls in the 100 x 100 arena: two inside, one on the outer
boundary x = 0, one dead. -/
def sampleStore : List Ball :=
  [Ball.create 10 40 50 "normal" (1 / 50) 2, Ball.create 10 70 20 "aggressive" (1 / 50) 5,
   Ball.create 10 0 50 "normal" (1 / 50) 1,
   { diameter := 10, position := (20, 20), type := "dead", direction := 6,
     turningParameter := 1 / 50, speed := 1 }]

/-- A tree that no sequence of inserts builds: its only node holds reference 0,
whose ball (40,50) of `sampleStore` lies outside the node's rectangle. -/
def strayTree : QuadTree := QuadTree.leaf ⟨0, 0, 10, 10⟩ [0]

/-- One ball of diameter 1 at (1,1), for the 4 x 4 arena. -/
def cornerStore : List Ball := [Ball.create 1 1 1 "normal" (1 / 50) 0]

/-! ## Lemmas -/

/-! ### Arithmetic of truncating division -/

theorem tdiv_two_of_nonneg {a : Int} (h : 0 ≤ a) : a.tdiv 2 = a / 2 :=
  Int.tdiv_eq_ediv h (by decide)

theorem tdiv_two_bounds (a : Int) :
    (0 ≤ a → 0 ≤ a.tdiv 2 ∧ 2 * a.tdiv 2 ≤ a ∧ a ≤ 2 * a.tdiv 2 + 1) ∧
    (a ≤ 0 → a.tdiv 2 ≤ 0 ∧ a ≤ 2 * a.tdiv 2 ∧ 2 * a.tdiv 2 ≤ a + 1) := by
  constructor
  · intro h
    rw [tdiv_two_of_nonneg h]
    omega
  · intro h
    have h1 : a = -(-a) := by omega
    have h2 : a.tdiv 2 = -((-a).tdiv 2) := by
      conv_lhs => rw [h1]
      exact Int.neg_tdiv _ _
    rw [h2, tdiv_two_of_nonneg (by omega : (0:Int) ≤ -a)]
    omega

/-! ### Insertion -/

namespace QuadTree

theorem insert_new (bs : List Ball) (r : Rectangle) (ball : Nat) :
    insert bs (new r) ball = insertNew bs r ball := by
  simp [new, insert, insertNew, CAPACITY]

theorem insert_leaf_subdivide (bs : List Ball) (b : Rectangle) (bl : List Nat) (ball : Nat)
    (hin : b.containsBall (deref bs ball) = true) (hfull : ¬ bl.length < CAPACITY) :
    insert bs (leaf b bl) ball = insert bs (subdivide (leaf b bl)) ball := by
  rw [subdivide, insert.eq_1, insert.eq_2]
  simp only [boundary, balls, insert_new, hin, hfull]
  rfl

theorem insert_boundary (bs : List Ball) (t : QuadTree) (ball : Nat) :
    (insert bs t ball).2.boundary = t.boundary := by
  cases t <;> simp only [insert, tryChildren] <;> split_ifs <;> rfl

theorem insert_outside (bs : List Ball) (t : QuadTree) (ball : Nat)
    (h : t.boundary.containsBall (deref bs ball) = false) :
    insert bs t ball = (false, t) := by
  cases t <;> simp_all [insert, boundary]

theorem insert_true_inside (bs : List Ball) (t : QuadTree) (ball : Nat)
    (h : (insert bs t ball).1 = true) : t.boundary.containsBall (deref bs ball) = true := by
  by_contra hc
  rw [insert_outside bs t ball (by simpa using hc)] at h
  simp at h

theorem insertNew_count (bs : List Ball) (r : Rectangle) (p q : Nat) :
    (refs (insertNew bs r p).2).count q =
      if (insertNew bs r p).1 = true ∧ q = p then 1 else 0 := by
  unfold insertNew
  by_cases h : r.containsBall (deref bs p) = true
  · by_cases hq : q = p
    · simp [h, refs, hq]
    · simp [h, refs, hq, List.count_singleton, Ne.symm hq]
  · simp [h, refs, new]

theorem tryChildren_count (b : Rectangle) (bl : List Nat) (ne nw se sw : QuadTree)
    (ine inw ise isw : Bool × QuadTree) (p q : Nat)
    (h1 : (refs ine.2).count q = (refs ne).count q + if ine.1 = true ∧ q = p then 1 else 0)
    (h2 : (refs inw.2).count q = (refs nw).count q + if inw.1 = true ∧ q = p then 1 else 0)
    (h3 : (refs ise.2).count q = (refs se).count q + if ise.1 = true ∧ q = p then 1 else 0)
    (h4 : (refs isw.2).count q = (refs sw).count q + if isw.1 = true ∧ q = p then 1 else 0) :
    (refs (tryChildren b bl nw se sw ine inw ise isw).2).count q =
      (refs (branch b bl ne nw se sw)).count q +
        if (tryChildren b bl nw se sw ine inw ise isw).1 = true ∧ q = p then 1 else 0 := by
  unfold tryChildren
  split_ifs <;> simp_all [refs, List.count_append] <;> omega

theorem tryChildren_new_count (bs : List Ball) (b : Rectangle) (bl : List Nat)
    (r1 r2 r3 r4 : Rectangle) (p q : Nat) :
    (refs (tryChildren b bl (new r2) (new r3) (new r4) (insertNew bs r1 p) (insertNew bs r2 p)
      (insertNew bs r3 p) (insertNew bs r4 p)).2).count q =
      bl.count q +
        if (tryChildren b bl (new r2) (new r3) (new r4) (insertNew bs r1 p) (insertNew bs r2 p)
          (insertNew bs r3 p) (insertNew bs r4 p)).1 = true ∧ q = p then 1 else 0 := by
  have := tryChildren_count b bl (new r1) (new r2) (new r3) (new r4)
    (insertNew bs r1 p) (insertNew bs r2 p) (insertNew bs r3 p) (insertNew bs r4 p) p q
    (by rw [insertNew_count]; simp [new, refs])
    (by rw [insertNew_count]; simp [new, refs])
    (by rw [insertNew_count]; simp [new, refs])
    (by rw [insertNew_count]; simp [new, refs])
  simpa [refs, new] using this

theorem insert_count (bs : List Ball) (t : QuadTree) (p q : Nat) :
    (refs (insert bs t p).2).count q =
      (refs t).count q + if (insert bs t p).1 = true ∧ q = p then 1 else 0 := by
  induction t with
  | leaf b bl =>
    rw [insert.eq_1]
    by_cases hin : b.containsBall (deref bs p) = true
    · by_cases hcap : bl.length < CAPACITY
      · by_cases hq : q = p
        · simp [hin, hcap, refs, List.count_append, hq]
        · simp [hin, hcap, refs, List.count_append, hq, List.count_singleton, Ne.symm hq]
      · simp only [hin, hcap, Bool.not_true, if_false]
        have := tryChildren_new_count bs b bl ⟨b.x + b.width.tdiv 2, b.y, b.width.tdiv 2, b.height.tdiv 2⟩
          ⟨b.x, b.y, b.width.tdiv 2, b.height.tdiv 2⟩
          ⟨b.x + b.width.tdiv 2, b.y + b.height.tdiv 2, b.width.tdiv 2, b.height.tdiv 2⟩
          ⟨b.x, b.y + b.height.tdiv 2, b.width.tdiv 2, b.height.tdiv 2⟩ p q
        simpa [refs] using this
    · simp [hin]
  | branch b bl ne nw se sw ih1 ih2 ih3 ih4 =>
    rw [insert.eq_2]
    by_cases hin : b.containsBall (deref bs p) = true
    · by_cases hcap : bl.length < CAPACITY
      · by_cases hq : q = p
        · simp [hin, hcap, refs, List.count_append, hq]; omega
        · simp [hin, hcap, refs, List.count_append, hq, List.count_singleton, Ne.symm hq]
      · simp only [hin, hcap, Bool.not_true, if_false]
        exact tryChildren_count b bl ne nw se sw _ _ _ _ p q ih1 ih2 ih3 ih4
    · simp [hin]

theorem mem_refs_insert (bs : List Ball) (t : QuadTree) (p q : Nat) :
    q ∈ refs (insert bs t p).2 ↔ q ∈ refs t ∨ ((insert bs t p).1 = true ∧ q = p) := by
  have h := insert_count bs t p q
  rw [← List.count_pos_iff, ← List.count_pos_iff]
  by_cases hc : (insert bs t p).1 = true ∧ q = p
  · rw [if_pos hc] at h
    have : 0 < List.count q (refs (insert bs t p).2) := by omega
    simp only [hc, and_self, or_true, iff_true]
    simpa [hc.2] using this
  · rw [if_neg hc] at h
    simp only [hc, or_false]
    omega

theorem Inside.top {bs : List Ball} {t : QuadTree} (h : Inside bs t) :
    ∀ q ∈ refs t, t.boundary.containsBall (deref bs q) = true := by
  cases t with
  | leaf b bl => exact h
  | branch b bl ne nw se sw => exact h.1

theorem inside_new (bs : List Ball) (r : Rectangle) : Inside bs (new r) := by
  simp [new, Inside]

theorem inside_insertNew (bs : List Ball) (r : Rectangle) (p : Nat) :
    Inside bs (insertNew bs r p).2 := by
  unfold insertNew
  by_cases h : r.containsBall (deref bs p) = true
  · simp [h, Inside]
  · simp [h, inside_new]

theorem inside_tryChildren (bs : List Ball) (b : Rectangle) (bl : List Nat) (nw se sw : QuadTree)
    (ine inw ise isw : Bool × QuadTree)
    (htop : ∀ q ∈ refs (tryChildren b bl nw se sw ine inw ise isw).2,
      b.containsBall (deref bs q) = true)
    (h1 : Inside bs ine.2) (h2 : Inside bs inw.2) (h3 : Inside bs ise.2) (h4 : Inside bs isw.2)
    (g2 : Inside bs nw) (g3 : Inside bs se) (g4 : Inside bs sw) :
    Inside bs (tryChildren b bl nw se sw ine inw ise isw).2 := by
  unfold tryChildren at htop ⊢
  split_ifs at htop ⊢ <;> exact ⟨htop, by assumption, by assumption, by assumption, by assumption⟩

theorem inside_insert (bs : List Ball) (t : QuadTree) (p : Nat) (h : Inside bs t) :
    Inside bs (insert bs t p).2 := by
  induction t with
  | leaf b bl =>
    have htop : ∀ q ∈ refs (insert bs (leaf b bl) p).2, b.containsBall (deref bs q) = true := by
      intro q hq
      rw [mem_refs_insert] at hq
      rcases hq with hq | ⟨h1, rfl⟩
      · exact h q hq
      · exact insert_true_inside bs _ _ h1
    rw [insert.eq_1] at htop ⊢
    by_cases hin : b.containsBall (deref bs p) = true
    · by_cases hcap : bl.length < CAPACITY
      · simp only [hin, hcap, Bool.not_true, if_false, if_true] at htop ⊢
        exact htop
      · simp only [hin, hcap, Bool.not_true, if_false] at htop ⊢
        exact inside_tryChildren bs b bl _ _ _ _ _ _ _ htop (inside_insertNew _ _ _)
          (inside_insertNew _ _ _) (inside_insertNew _ _ _) (inside_insertNew _ _ _)
          (inside_new _ _) (inside_new _ _) (inside_new _ _)
    · simpa [hin] using h
  | branch b bl ne nw se sw ih1 ih2 ih3 ih4 =>
    have htop : ∀ q ∈ refs (insert bs (branch b bl ne nw se sw) p).2,
        b.containsBall (deref bs q) = true := by
      intro q hq
      rw [mem_refs_insert] at hq
      rcases hq with hq | ⟨h1, rfl⟩
      · exact h.1 q hq
      · exact insert_true_inside bs _ _ h1
    obtain ⟨_, g1, g2, g3, g4⟩ := h
    rw [insert.eq_2] at htop ⊢
    by_cases hin : b.containsBall (deref bs p) = true
    · by_cases hcap : bl.length < CAPACITY
      · simp only [hin, hcap, Bool.not_true, if_false, if_true] at htop ⊢
        exact ⟨htop, g1, g2, g3, g4⟩
      · simp only [hin, hcap, Bool.not_true, if_false] at htop ⊢
        exact inside_tryChildren bs b bl _ _ _ _ _ _ _ htop (ih1 g1) (ih2 g2) (ih3 g3) (ih4 g4)
          g2 g3 g4
    · simp only [hin, Bool.not_false, if_true] at htop ⊢
      exact ⟨htop, g1, g2, g3, g4⟩

/-! ### Query -/

theorem intersects_of_common_ball (r range : Rectangle) (ball : Ball)
    (h1 : r.containsBall ball = true) (h2 : range.containsBall ball = true) :
    r.intersects range = true := by
  simp only [Rectangle.containsBall, decide_eq_true_eq] at h1 h2
  simp only [Rectangle.intersects, Bool.not_eq_true', decide_eq_false_iff_not]
  omega

theorem query_append (bs : List Ball) (t : QuadTree) (range : Rectangle) (found : List Nat) :
    query bs t range found = found ++ query bs t range [] := by
  induction t generalizing found with
  | leaf b bl => simp only [query]; split_ifs <;> simp
  | branch b bl ne nw se sw ih1 ih2 ih3 ih4 =>
    simp only [query]
    split_ifs
    · simp
    · rw [ih4, ih3, ih2, ih1, ih4 (query bs se range _), ih3 (query bs nw range _),
        ih2 (query bs ne range _), ih1 ([] ++ _)]
      simp [List.append_assoc]

theorem query_eq_filter (bs : List Ball) (t : QuadTree) (range : Rectangle) (found : List Nat)
    (h : Inside bs t) :
    query bs t range found =
      found ++ (refs t).filter (fun p => range.containsBall (deref bs p)) := by
  have hprune : ∀ t : QuadTree, Inside bs t → t.boundary.intersects range = false →
      (refs t).filter (fun p => range.containsBall (deref bs p)) = [] := by
    intro t ht hno
    rw [List.filter_eq_nil_iff]
    intro q hq hc
    have := intersects_of_common_ball _ range _ (ht.top q hq) hc
    rw [hno] at this
    exact absurd this (by decide)
  induction t generalizing found with
  | leaf b bl =>
    by_cases hi : b.intersects range = true
    · simp [query, hi, refs]
    · have := hprune (leaf b bl) h (by simpa [boundary] using hi)
      simp [query, hi, this]
  | branch b bl ne nw se sw ih1 ih2 ih3 ih4 =>
    by_cases hi : b.intersects range = true
    · obtain ⟨_, g1, g2, g3, g4⟩ := h
      simp only [query, hi, Bool.not_true, if_false]
      rw [ih4 _ g4, ih3 _ g3, ih2 _ g2, ih1 _ g1]
      simp [refs, List.append_assoc]
    · have := hprune _ h (by simpa [boundary] using hi)
      simp [query, hi, this]

theorem mem_query (bs : List Ball) (t : QuadTree) (range : Rectangle) (found : List Nat)
    (q : Nat) (h : q ∈ query bs t range found) :
    q ∈ found ∨ (q ∈ refs t ∧ range.containsBall (deref bs q) = true) := by
  induction t generalizing found with
  | leaf b bl =>
    simp only [query] at h
    split_ifs at h
    · exact Or.inl h
    · simpa [refs] using h
  | branch b bl ne nw se sw ih1 ih2 ih3 ih4 =>
    simp only [query] at h
    split_ifs at h
    · exact Or.inl h
    · rcases ih4 _ h with h | h
      · rcases ih3 _ h with h | h
        · rcases ih2 _ h with h | h
          · rcases ih1 _ h with h | h
            · simp only [List.mem_append, List.mem_filter] at h
              rcases h with h | h
              · exact Or.inl h
              · exact Or.inr ⟨by simp [refs, h.1], h.2⟩
            · exact Or.inr ⟨by simp [refs, h.1], h.2⟩
          · exact Or.inr ⟨by simp [refs, h.1], h.2⟩
        · exact Or.inr ⟨by simp [refs, h.1], h.2⟩
      · exact Or.inr ⟨by simp [refs, h.1], h.2⟩

theorem insertSeq_nil (bs : List Ball) (t : QuadTree) : insertSeq bs t [] = t := rfl

theorem insertSeq_cons (bs : List Ball) (t : QuadTree) (p : Nat) (ps : List Nat) :
    insertSeq bs t (p :: ps) = insertSeq bs (insert bs t p).2 ps := rfl

theorem insertSeq_append (bs : List Ball) (t : QuadTree) (ps qs : List Nat) :
    insertSeq bs t (ps ++ qs) = insertSeq bs (insertSeq bs t ps) qs := by
  simp [insertSeq, List.foldl_append]

theorem insertSeq_boundary (bs : List Ball) (t : QuadTree) (ps : List Nat) :
    (insertSeq bs t ps).boundary = t.boundary := by
  induction ps generalizing t with
  | nil => rfl
  | cons p ps ih => rw [insertSeq_cons, ih, insert_boundary]

theorem inside_insertSeq (bs : List Ball) (t : QuadTree) (ps : List Nat) (h : Inside bs t) :
    Inside bs (insertSeq bs t ps) := by
  induction ps generalizing t with
  | nil => exact h
  | cons p ps ih => exact ih _ (inside_insert bs t p h)

theorem mem_refs_insertSeq_of_mem (bs : List Ball) (t : QuadTree) (ps : List Nat) (q : Nat)
    (h : q ∈ refs t) : q ∈ refs (insertSeq bs t ps) := by
  induction ps generalizing t with
  | nil => exact h
  | cons p ps ih => exact ih _ ((mem_refs_insert bs t p q).2 (Or.inl h))

theorem mem_refs_insertSeq (bs : List Ball) (t : QuadTree) (ps : List Nat) (q : Nat)
    (h : q ∈ refs (insertSeq bs t ps)) : q ∈ refs t ∨ q ∈ ps := by
  induction ps generalizing t with
  | nil => exact Or.inl h
  | cons p ps ih =>
    rcases ih _ h with h1 | h1
    · rcases (mem_refs_insert bs t p q).1 h1 with h2 | ⟨_, rfl⟩
      · exact Or.inl h2
      · exact Or.inr (List.mem_cons_self _ _)
    · exact Or.inr (List.mem_cons_of_mem _ h1)

/-- A reference accepted by the root rectangle's test is the only kind that a
sequence of inserts into an empty root can store. -/
theorem refs_insertSeq_new_inside (bs : List Ball) (r : Rectangle) (ps : List Nat) (q : Nat)
    (h : q ∈ refs (insertSeq bs (new r) ps)) : r.containsBall (deref bs q) = true := by
  have h1 := (inside_insertSeq bs (new r) ps (inside_new bs r)).top q h
  rwa [insertSeq_boundary] at h1

theorem mem_query_of_inserted (bs : List Ball) (r : Rectangle) (ps : List Nat) (k : Nat)
    (hk : k < ps.length)
    (hins : (insert bs (insertSeq bs (new r) (ps.take k)) (ps.get ⟨k, hk⟩)).1 = true) :
    ps.get ⟨k, hk⟩ ∈ query bs (insertSeq bs (new r) ps) r [] := by
  have hsplit : ps = ps.take k ++ (ps.get ⟨k, hk⟩ :: ps.drop (k + 1)) := by
    simp
  have hmem : ps.get ⟨k, hk⟩ ∈ refs (insertSeq bs (new r) ps) := by
    have key : insertSeq bs (new r) ps =
        insertSeq bs (insert bs (insertSeq bs (new r) (ps.take k)) (ps.get ⟨k, hk⟩)).2
          (ps.drop (k + 1)) := by
      rw [← insertSeq_cons, ← insertSeq_append, ← hsplit]
    rw [key]
    exact mem_refs_insertSeq_of_mem _ _ _ _ ((mem_refs_insert _ _ _ _).2 (Or.inr ⟨hins, rfl⟩))
  rw [query_eq_filter _ _ _ _ (inside_insertSeq bs (new r) ps (inside_new bs r))]
  simp only [List.nil_append, List.mem_filter]
  exact ⟨hmem, refs_insertSeq_new_inside bs r ps _ hmem⟩

theorem not_mem_query_of_outside (bs : List Ball) (r : Rectangle) (ps : List Nat) (p : Nat)
    (hout : r.containsBall (deref bs p) = false) (range : Rectangle) :
    p ∉ query bs (insertSeq bs (new r) ps) range [] := by
  intro h
  rcases mem_query bs _ range [] p h with h | ⟨h, _⟩
  · simp at h
  · have := refs_insertSeq_new_inside bs r ps p h
    rw [hout] at this
    exact absurd this (by decide)

end QuadTree

theorem insertBallsFrom_eq (bs : List Ball) (i : Nat) (rest : List Ball) (t : QuadTree) :
    insertBallsFrom bs i rest t = insertSeq bs t (List.range' i rest.length) := by
  induction rest generalizing i t with
  | nil => rfl
  | cons b rest ih =>
    simp only [insertBallsFrom, List.length_cons, List.range'_succ, QuadTree.insertSeq_cons]
    exact ih _ _

theorem insertBallsIntoQuadTree_eq (bs : List Ball) (t : QuadTree) :
    insertBallsIntoQuadTree bs t = insertSeq bs t (List.range bs.length) := by
  rw [insertBallsIntoQuadTree, insertBallsFrom_eq, List.range_eq_range']

/-! ### Detection and commit passes -/

theorem getD_set_true (l : List Bool) (i k : Nat) :
    (l.set i true).getD k false = true ↔ (l.getD k false = true ∨ (k = i ∧ k < l.length)) := by
  simp only [List.getD_eq_getElem?_getD, List.getElem?_set]
  by_cases hik : i = k
  · subst hik
    by_cases hlt : i < l.length
    · simp [hlt]
    · simp [hlt, List.getElem?_eq_none (Nat.le_of_not_lt hlt)]
  · simp [hik, Ne.symm hik]

theorem scanFound_length (bs : List Ball) (i : Nat) (found : List Nat) (flags : List Bool) :
    (scanFound bs i found flags).length = flags.length := by
  induction found generalizing flags with
  | nil => rfl
  | cons o rest ih =>
    simp only [scanFound]
    split_ifs <;> simp [ih]

theorem scanFound_getD (bs : List Ball) (i : Nat) (found : List Nat) (flags : List Bool)
    (k : Nat) :
    (scanFound bs i found flags).getD k false = true ↔
      (flags.getD k false = true ∨
        (k < flags.length ∧ ∃ o ∈ found, o ≠ i ∧ (deref bs o).type ≠ "dead" ∧
          overlap (deref bs i) (deref bs o) = true ∧ (k = i ∨ k = o))) := by
  induction found generalizing flags with
  | nil => simp [scanFound]
  | cons o rest ih =>
    simp only [scanFound]
    split_ifs with h1 h2
    · rw [ih, getD_set_true, getD_set_true]
      simp only [List.length_set, List.mem_cons, exists_eq_or_imp]
      constructor
      · rintro (((h | h) | h) | h)
        · exact Or.inl h
        · exact Or.inr ⟨h.2, Or.inl ⟨h1.1, h1.2, h2, Or.inl h.1⟩⟩
        · exact Or.inr ⟨h.2, Or.inl ⟨h1.1, h1.2, h2, Or.inr h.1⟩⟩
        · exact Or.inr ⟨h.1, Or.inr h.2⟩
      · rintro (h | ⟨hk, (⟨_, _, _, (h | h)⟩ | h)⟩)
        · exact Or.inl (Or.inl (Or.inl h))
        · exact Or.inl (Or.inl (Or.inr ⟨h, hk⟩))
        · exact Or.inl (Or.inr ⟨h, hk⟩)
        · exact Or.inr ⟨hk, h⟩
    · rw [ih]
      simp only [List.mem_cons, exists_eq_or_imp]
      constructor
      · rintro (h | ⟨hk, h⟩)
        · exact Or.inl h
        · exact Or.inr ⟨hk, Or.inr h⟩
      · rintro (h | ⟨hk, (⟨_, _, h, _⟩ | h)⟩)
        · exact Or.inl h
        · exact absurd h h2
        · exact Or.inr ⟨hk, h⟩
    · rw [ih]
      simp only [List.mem_cons, exists_eq_or_imp]
      constructor
      · rintro (h | ⟨hk, h⟩)
        · exact Or.inl h
        · exact Or.inr ⟨hk, Or.inr h⟩
      · rintro (h | ⟨hk, (⟨ha, hb, _⟩ | h)⟩)
        · exact Or.inl h
        · exact absurd ⟨ha, hb⟩ h1
        · exact Or.inr ⟨hk, h⟩

theorem detectBall_length (bs : List Ball) (t : QuadTree) (flags : List Bool) (i : Nat) :
    (detectBall bs t flags i).length = flags.length := by
  unfold detectBall
  split_ifs
  · exact scanFound_length _ _ _ _
  · rfl

theorem detectBall_getD (bs : List Ball) (t : QuadTree) (flags : List Bool) (i k : Nat) :
    (detectBall bs t flags i).getD k false = true ↔
      (flags.getD k false = true ∨
        (k < flags.length ∧ ∃ o, Hit bs t i o ∧ (k = i ∨ k = o))) := by
  unfold detectBall
  split_ifs with h
  · rw [scanFound_getD]
    constructor
    · rintro (h1 | ⟨hk, o, ho, h2, h3, h4, h5⟩)
      · exact Or.inl h1
      · exact Or.inr ⟨hk, o, ⟨h, ho, h2, h3, h4⟩, h5⟩
    · rintro (h1 | ⟨hk, o, ⟨_, ho, h2, h3, h4⟩, h5⟩)
      · exact Or.inl h1
      · exact Or.inr ⟨hk, o, ho, h2, h3, h4, h5⟩
  · constructor
    · exact Or.inl
    · rintro (h1 | ⟨_, o, ⟨h2, _⟩, _⟩)
      · exact h1
      · exact absurd h2 h

theorem foldl_detectBall_length (bs : List Ball) (t : QuadTree) (is : List Nat)
    (flags : List Bool) : (is.foldl (detectBall bs t) flags).length = flags.length := by
  induction is generalizing flags with
  | nil => rfl
  | cons i is ih => rw [List.foldl_cons, ih, detectBall_length]

theorem foldl_detectBall_getD (bs : List Ball) (t : QuadTree) (is : List Nat)
    (flags : List Bool) (k : Nat) :
    (is.foldl (detectBall bs t) flags).getD k false = true ↔
      (flags.getD k false = true ∨
        (k < flags.length ∧ ∃ i ∈ is, ∃ o, Hit bs t i o ∧ (k = i ∨ k = o))) := by
  induction is generalizing flags with
  | nil => simp
  | cons i is ih =>
    rw [List.foldl_cons, ih, detectBall_getD, detectBall_length]
    simp only [List.mem_cons, exists_eq_or_imp]
    constructor
    · rintro ((h | ⟨hk, h⟩) | ⟨hk, h⟩)
      · exact Or.inl h
      · exact Or.inr ⟨hk, Or.inl h⟩
      · exact Or.inr ⟨hk, Or.inr h⟩
    · rintro (h | ⟨hk, (h | h)⟩)
      · exact Or.inl (Or.inl h)
      · exact Or.inl (Or.inr ⟨hk, h⟩)
      · exact Or.inr ⟨hk, h⟩

theorem detect_length (bs : List Ball) (t : QuadTree) : (detect bs t).length = bs.length := by
  simp [detect, foldl_detectBall_length]

/-- The flag of ball `k` after the detection pass: it is set exactly when `k` is
one of the two balls of a pair for which lines 281-282 ran. -/
theorem detect_getD (bs : List Ball) (t : QuadTree) (k : Nat) :
    (detect bs t).getD k false = true ↔
      (k < bs.length ∧ ∃ i, i < bs.length ∧ ∃ o, Hit bs t i o ∧ (k = i ∨ k = o)) := by
  unfold detect
  rw [foldl_detectBall_getD]
  simp only [List.length_replicate, List.mem_range]
  constructor
  · rintro (h | ⟨hk, i, hi, h⟩)
    · simp only [List.getD_eq_getElem?_getD, List.getElem?_replicate] at h
      split_ifs at h <;> simp at h
    · exact ⟨hk, i, hi, h⟩
  · rintro ⟨hk, i, hi, h⟩
    exact Or.inr ⟨hk, i, hi, h⟩

theorem commitFrom_length (flags : List Bool) (j : Nat) (bs : List Ball) :
    (commitFrom flags j bs).length = bs.length := by
  induction bs generalizing j with
  | nil => rfl
  | cons b rest ih => simp [commitFrom, ih]

theorem commitFrom_getElem? (flags : List Bool) (j : Nat) (bs : List Ball) (k : Nat) :
    (commitFrom flags j bs)[k]? =
      bs[k]?.map (fun b => if flags.getD (j + k) false then { b with type := "dead" } else b) := by
  induction bs generalizing j k with
  | nil => simp [commitFrom]
  | cons b rest ih =>
    cases k with
    | zero => simp [commitFrom]
    | succ k =>
      simp only [commitFrom, List.getElem?_cons_succ, ih]
      have : j + 1 + k = j + (k + 1) := by omega
      rw [this]

theorem checkCollisions_length (bs : List Ball) (t : QuadTree) :
    (checkCollisions bs t).length = bs.length := commitFrom_length _ _ _

theorem checkCollisions_getElem? (bs : List Ball) (t : QuadTree) (k : Nat) :
    (checkCollisions bs t)[k]? =
      bs[k]?.map (fun b => if (detect bs t).getD k false then { b with type := "dead" } else b) := by
  rw [checkCollisions, commitFrom_getElem?, Nat.zero_add]

theorem deref_eq (bs : List Ball) (k : Nat) : deref bs k = (bs[k]?).getD default := by
  simp [deref, List.getD_eq_getElem?_getD]

theorem detect_getD_of_le (bs : List Ball) (t : QuadTree) (k : Nat) (hk : bs.length ≤ k) :
    (detect bs t).getD k false = false := by
  rw [List.getD_eq_getElem?_getD, List.getElem?_eq_none (by rw [detect_length]; exact hk)]
  rfl

theorem deref_checkCollisions (bs : List Ball) (t : QuadTree) (k : Nat) :
    deref (checkCollisions bs t) k =
      if (detect bs t).getD k false then { deref bs k with type := "dead" } else deref bs k := by
  rw [deref_eq, deref_eq, checkCollisions_getElem?]
  by_cases hk : k < bs.length
  · rw [List.getElem?_eq_getElem hk]
    simp only [Option.map_some', Option.getD_some]
  · rw [detect_getD_of_le bs t k (Nat.le_of_not_lt hk),
      List.getElem?_eq_none (Nat.le_of_not_lt hk)]
    simp

/-! ### Detection run twice -/

theorem containsBall_congr (r : Rectangle) (a b : Ball) (h : a.position = b.position) :
    r.containsBall a = r.containsBall b := by
  simp [Rectangle.containsBall, h]

theorem query_congr (bs bs' : List Ball) (t : QuadTree) (range : Rectangle) (found : List Nat)
    (h : ∀ p, (deref bs' p).position = (deref bs p).position) :
    t.query bs' range found = t.query bs range found := by
  have hf : (fun p => range.containsBall (deref bs' p)) =
      (fun p => range.containsBall (deref bs p)) := by
    funext p
    exact containsBall_congr _ _ _ (h p)
  induction t generalizing found with
  | leaf b bl => simp only [QuadTree.query, hf]
  | branch b bl ne nw se sw ih1 ih2 ih3 ih4 =>
    simp only [QuadTree.query, hf, ih1, ih2, ih3, ih4]

theorem rangeOf_congr (a b : Ball) (h1 : a.position = b.position) (h2 : a.diameter = b.diameter) :
    rangeOf a = rangeOf b := by
  simp [rangeOf, h1, h2]

theorem overlap_congr (a a' o o' : Ball) (h1 : a'.position = a.position)
    (h2 : a'.diameter = a.diameter) (h3 : o'.position = o.position)
    (h4 : o'.diameter = o.diameter) : overlap a' o' = overlap a o := by
  simp [overlap, h1, h2, h3, h4]

theorem deref_checkCollisions_position (bs : List Ball) (t : QuadTree) (k : Nat) :
    (deref (checkCollisions bs t) k).position = (deref bs k).position := by
  rw [deref_checkCollisions]; split_ifs <;> rfl

theorem deref_checkCollisions_diameter (bs : List Ball) (t : QuadTree) (k : Nat) :
    (deref (checkCollisions bs t) k).diameter = (deref bs k).diameter := by
  rw [deref_checkCollisions]; split_ifs <;> rfl

theorem deref_checkCollisions_alive (bs : List Ball) (t : QuadTree) (k : Nat)
    (h : (deref (checkCollisions bs t) k).type ≠ "dead") :
    (deref bs k).type ≠ "dead" ∧ (detect bs t).getD k false = false := by
  rw [deref_checkCollisions] at h
  split_ifs at h with hf
  · exact absurd rfl h
  · exact ⟨h, by simpa using hf⟩

theorem deref_checkCollisions_dead (bs : List Ball) (t : QuadTree) (k : Nat)
    (h : (deref bs k).type = "dead") : (deref (checkCollisions bs t) k).type = "dead" := by
  rw [deref_checkCollisions]; split_ifs
  · rfl
  · exact h

theorem commitFrom_eq_self (flags : List Bool) (j : Nat) (bs : List Ball)
    (h : ∀ k, flags.getD k false = false) : commitFrom flags j bs = bs := by
  induction bs generalizing j with
  | nil => rfl
  | cons b rest ih => simp only [commitFrom, h, ih, Bool.false_eq_true, if_false]

/-- A pair detected in a second pass was already detected in the first. -/
theorem hit_checkCollisions (bs : List Ball) (t : QuadTree) (i o : Nat)
    (h : Hit (checkCollisions bs t) t i o) : Hit bs t i o := by
  obtain ⟨h1, h2, h3, h4, h5⟩ := h
  refine ⟨(deref_checkCollisions_alive bs t i h1).1, ?_, h3,
    (deref_checkCollisions_alive bs t o h4).1, ?_⟩
  · rw [query_congr bs _ t _ _ (deref_checkCollisions_position bs t),
      rangeOf_congr _ _ (deref_checkCollisions_position bs t i)
        (deref_checkCollisions_diameter bs t i)] at h2
    exact h2
  · rw [overlap_congr _ _ _ _ (deref_checkCollisions_position bs t i)
      (deref_checkCollisions_diameter bs t i) (deref_checkCollisions_position bs t o)
      (deref_checkCollisions_diameter bs t o)] at h5
    exact h5

theorem detect_checkCollisions (bs : List Ball) (t : QuadTree) (k : Nat) :
    (detect (checkCollisions bs t) t).getD k false = false := by
  by_contra hc
  have hc : (detect (checkCollisions bs t) t).getD k false = true := by simpa using hc
  rw [detect_getD] at hc
  obtain ⟨_, i, hi, o, hit, _⟩ := hc
  rw [checkCollisions_length] at hi
  have h1 := (deref_checkCollisions_alive bs t i hit.1).2
  have h2 : (detect bs t).getD i false = true :=
    (detect_getD bs t i).2 ⟨hi, i, hi, o, hit_checkCollisions bs t i o hit, Or.inl rfl⟩
  rw [h1] at h2
  exact absurd h2 (by decide)

theorem checkCollisions_twice (bs : List Ball) (t : QuadTree) :
    checkCollisions (checkCollisions bs t) t = checkCollisions bs t := by
  conv_lhs => rw [checkCollisions]
  exact commitFrom_eq_self _ _ _ (detect_checkCollisions bs t)

/-! ### Movement -/

theorem moveBall_type (width height : Int) (x : Draw) (b : Ball) :
    (moveBall width height x b).type = b.type := by
  unfold moveBall
  cases x <;> simp only [Ball.move] <;> split_ifs <;> rfl

theorem moveBall_diameter (width height : Int) (x : Draw) (b : Ball) :
    (moveBall width height x b).diameter = b.diameter := by
  unfold moveBall
  cases x <;> simp only [Ball.move] <;> split_ifs <;> rfl

theorem moveBallsFrom_length (width height : Int) (draws : Nat → Draw) (j : Nat)
    (bs : List Ball) : (moveBallsFrom width height draws j bs).length = bs.length := by
  induction bs generalizing j with
  | nil => rfl
  | cons b rest ih => simp [moveBallsFrom, ih]

theorem moveBallsFrom_getElem? (width height : Int) (draws : Nat → Draw) (j : Nat)
    (bs : List Ball) (k : Nat) :
    (moveBallsFrom width height draws j bs)[k]? =
      bs[k]?.map (moveBall width height (draws (j + k))) := by
  induction bs generalizing j k with
  | nil => simp [moveBallsFrom]
  | cons b rest ih =>
    cases k with
    | zero => simp [moveBallsFrom]
    | succ k =>
      simp only [moveBallsFrom, List.getElem?_cons_succ, ih]
      have : j + 1 + k = j + (k + 1) := by omega
      rw [this]

theorem moveBalls_length (width height : Int) (draws : Nat → Draw) (bs : List Ball) :
    (moveBalls width height draws bs).length = bs.length := moveBallsFrom_length _ _ _ _ _

theorem moveBalls_getElem? (width height : Int) (draws : Nat → Draw) (bs : List Ball)
    (k : Nat) :
    (moveBalls width height draws bs)[k]? = bs[k]?.map (moveBall width height (draws k)) := by
  rw [moveBalls, moveBallsFrom_getElem?, Nat.zero_add]

/-! ### Boundary lines and quadrants -/

namespace QuadTree

theorem onBoundaryLine_branch (b : Rectangle) (bl : List Nat) (ne nw se sw : QuadTree)
    (ball : Ball) :
    (branch b bl ne nw se sw).onBoundaryLine ball = true ↔
      (b.onLine ball = true ∨ ne.onBoundaryLine ball = true ∨ nw.onBoundaryLine ball = true ∨
        se.onBoundaryLine ball = true ∨ sw.onBoundaryLine ball = true) := by
  simp only [onBoundaryLine, Bool.or_eq_true, or_assoc]

theorem onBoundaryLine_root (t : QuadTree) (ball : Ball) (h : t.boundary.onLine ball = true) :
    t.onBoundaryLine ball = true := by
  cases t <;> simp_all [onBoundaryLine, boundary]

/-- A ball strictly inside a rectangle and strictly inside none of its four
quadrants lies on a side line of one of the quadrants. -/
theorem onLine_of_no_quadrant (b : Rectangle) (ball : Ball)
    (hin : b.containsBall ball = true)
    (h1 : Rectangle.containsBall ⟨b.x + b.width.tdiv 2, b.y, b.width.tdiv 2, b.height.tdiv 2⟩ ball = false)
    (h2 : Rectangle.containsBall ⟨b.x, b.y, b.width.tdiv 2, b.height.tdiv 2⟩ ball = false)
    (h3 : Rectangle.containsBall
      ⟨b.x + b.width.tdiv 2, b.y + b.height.tdiv 2, b.width.tdiv 2, b.height.tdiv 2⟩ ball = false)
    (h4 : Rectangle.containsBall ⟨b.x, b.y + b.height.tdiv 2, b.width.tdiv 2, b.height.tdiv 2⟩ ball = false) :
    Rectangle.onLine ⟨b.x + b.width.tdiv 2, b.y, b.width.tdiv 2, b.height.tdiv 2⟩ ball = true ∨
    Rectangle.onLine ⟨b.x, b.y, b.width.tdiv 2, b.height.tdiv 2⟩ ball = true ∨
    Rectangle.onLine
      ⟨b.x + b.width.tdiv 2, b.y + b.height.tdiv 2, b.width.tdiv 2, b.height.tdiv 2⟩ ball = true ∨
    Rectangle.onLine ⟨b.x, b.y + b.height.tdiv 2, b.width.tdiv 2, b.height.tdiv 2⟩ ball = true := by
  simp only [Rectangle.containsBall, decide_eq_true_eq, decide_eq_false_iff_not] at hin h1 h2 h3 h4
  simp only [Rectangle.onLine, decide_eq_true_eq]
  have hw := (tdiv_two_bounds b.width).1 (by omega)
  have hh := (tdiv_two_bounds b.height).1 (by omega)
  generalize b.width.tdiv 2 = w at *
  generalize b.height.tdiv 2 = h at *
  omega

theorem insert_leaf_full (bs : List Ball) (b : Rectangle) (bl : List Nat) (p : Nat)
    (hin : b.containsBall (deref bs p) = true) (hcap : ¬ bl.length < CAPACITY) :
    insert bs (leaf b bl) p =
      tryChildren b bl (new ⟨b.x, b.y, b.width.tdiv 2, b.height.tdiv 2⟩)
        (new ⟨b.x + b.width.tdiv 2, b.y + b.height.tdiv 2, b.width.tdiv 2, b.height.tdiv 2⟩)
        (new ⟨b.x, b.y + b.height.tdiv 2, b.width.tdiv 2, b.height.tdiv 2⟩)
        (insertNew bs ⟨b.x + b.width.tdiv 2, b.y, b.width.tdiv 2, b.height.tdiv 2⟩ p)
        (insertNew bs ⟨b.x, b.y, b.width.tdiv 2, b.height.tdiv 2⟩ p)
        (insertNew bs
          ⟨b.x + b.width.tdiv 2, b.y + b.height.tdiv 2, b.width.tdiv 2, b.height.tdiv 2⟩ p)
        (insertNew bs ⟨b.x, b.y + b.height.tdiv 2, b.width.tdiv 2, b.height.tdiv 2⟩ p) := by
  rw [insert.eq_1]
  simp only [hin, hcap, Bool.not_true, Bool.false_eq_true, if_false]

theorem insert_branch_full (bs : List Ball) (b : Rectangle) (bl : List Nat)
    (ne nw se sw : QuadTree) (p : Nat)
    (hin : b.containsBall (deref bs p) = true) (hcap : ¬ bl.length < CAPACITY) :
    insert bs (branch b bl ne nw se sw) p =
      tryChildren b bl nw se sw (insert bs ne p) (insert bs nw p) (insert bs se p)
        (insert bs sw p) := by
  rw [insert.eq_2]
  simp only [hin, hcap, Bool.not_true, Bool.false_eq_true, if_false]

theorem insert_room (bs : List Ball) (t : QuadTree) (p : Nat)
    (hin : t.boundary.containsBall (deref bs p) = true) (hcap : t.balls.length < CAPACITY) :
    (insert bs t p).1 = true := by
  cases t <;> simp_all [insert, boundary, balls]

theorem insertNew_false (bs : List Ball) (r : Rectangle) (p : Nat)
    (h : (insertNew bs r p).1 = false) :
    r.containsBall (deref bs p) = false ∧ (insertNew bs r p).2 = new r := by
  unfold insertNew at h ⊢
  by_cases hc : r.containsBall (deref bs p) = true
  · simp [hc] at h
  · simp [hc]

theorem tryChildren_false (b : Rectangle) (bl : List Nat) (nw se sw : QuadTree)
    (ine inw ise isw : Bool × QuadTree)
    (h : (tryChildren b bl nw se sw ine inw ise isw).1 = false) :
    ine.1 = false ∧ inw.1 = false ∧ ise.1 = false ∧ isw.1 = false ∧
      (tryChildren b bl nw se sw ine inw ise isw).2 = branch b bl ine.2 inw.2 ise.2 isw.2 := by
  unfold tryChildren at h ⊢
  split_ifs at h ⊢
  simp_all

/-- A rejected ball lies outside the node's open rectangle or on a boundary line
of a node of the tree left behind. -/
theorem insert_false (bs : List Ball) (t : QuadTree) (p : Nat) (hq : Quadrants t)
    (h : (insert bs t p).1 = false) :
    t.boundary.containsBall (deref bs p) = false ∨
      (insert bs t p).2.onBoundaryLine (deref bs p) = true := by
  induction t with
  | leaf b bl =>
    by_cases hin : b.containsBall (deref bs p) = true
    · right
      by_cases hcap : bl.length < CAPACITY
      · rw [insert_room bs (leaf b bl) p hin hcap] at h
        exact absurd h (by decide)
      · rw [insert_leaf_full bs b bl p hin hcap] at h ⊢
        obtain ⟨f1, f2, f3, f4, heq⟩ := tryChildren_false _ _ _ _ _ _ _ _ _ h
        rw [heq]
        have g1 := insertNew_false _ _ _ f1
        have g2 := insertNew_false _ _ _ f2
        have g3 := insertNew_false _ _ _ f3
        have g4 := insertNew_false _ _ _ f4
        rw [g1.2, g2.2, g3.2, g4.2]
        rw [onBoundaryLine_branch]
        rcases onLine_of_no_quadrant b (deref bs p) hin g1.1 g2.1 g3.1 g4.1 with hl | hl | hl | hl
        · exact Or.inr (Or.inl hl)
        · exact Or.inr (Or.inr (Or.inl hl))
        · exact Or.inr (Or.inr (Or.inr (Or.inl hl)))
        · exact Or.inr (Or.inr (Or.inr (Or.inr hl)))
    · left
      simpa [boundary] using hin
  | branch b bl ne nw se sw ih1 ih2 ih3 ih4 =>
    by_cases hin : b.containsBall (deref bs p) = true
    · right
      obtain ⟨e1, e2, e3, e4, q1, q2, q3, q4⟩ := hq
      by_cases hcap : bl.length < CAPACITY
      · rw [insert_room bs (branch b bl ne nw se sw) p hin hcap] at h
        exact absurd h (by decide)
      · rw [insert_branch_full bs b bl ne nw se sw p hin hcap] at h ⊢
        obtain ⟨f1, f2, f3, f4, heq⟩ := tryChildren_false _ _ _ _ _ _ _ _ _ h
        rw [heq]
        rw [onBoundaryLine_branch]
        rcases ih1 q1 f1 with g1 | g1
        · rcases ih2 q2 f2 with g2 | g2
          · rcases ih3 q3 f3 with g3 | g3
            · rcases ih4 q4 f4 with g4 | g4
              · rw [e1] at g1
                rw [e2] at g2
                rw [e3] at g3
                rw [e4] at g4
                have hl := onLine_of_no_quadrant b (deref bs p) hin g1 g2 g3 g4
                rw [← e1, ← e2, ← e3, ← e4, ← insert_boundary bs ne p, ← insert_boundary bs nw p,
                  ← insert_boundary bs se p, ← insert_boundary bs sw p] at hl
                rcases hl with hl | hl | hl | hl
                · exact Or.inr (Or.inl (onBoundaryLine_root _ _ hl))
                · exact Or.inr (Or.inr (Or.inl (onBoundaryLine_root _ _ hl)))
                · exact Or.inr (Or.inr (Or.inr (Or.inl (onBoundaryLine_root _ _ hl))))
                · exact Or.inr (Or.inr (Or.inr (Or.inr (onBoundaryLine_root _ _ hl))))
              · exact Or.inr (Or.inr (Or.inr (Or.inr g4)))
            · exact Or.inr (Or.inr (Or.inr (Or.inl g3)))
          · exact Or.inr (Or.inr (Or.inl g2))
        · exact Or.inr (Or.inl g1)
    · left
      simpa [boundary] using hin

theorem quadrants_new (r : Rectangle) : Quadrants (new r) := trivial

theorem quadrants_insertNew (bs : List Ball) (r : Rectangle) (p : Nat) :
    Quadrants (insertNew bs r p).2 ∧ (insertNew bs r p).2.boundary = r := by
  unfold insertNew
  split_ifs <;> exact ⟨trivial, rfl⟩

theorem quadrants_tryChildren (b : Rectangle) (bl : List Nat) (nw se sw : QuadTree)
    (ine inw ise isw : Bool × QuadTree)
    (e1 : ine.2.boundary = ⟨b.x + b.width.tdiv 2, b.y, b.width.tdiv 2, b.height.tdiv 2⟩)
    (e2 : inw.2.boundary = ⟨b.x, b.y, b.width.tdiv 2, b.height.tdiv 2⟩)
    (e3 : ise.2.boundary =
      ⟨b.x + b.width.tdiv 2, b.y + b.height.tdiv 2, b.width.tdiv 2, b.height.tdiv 2⟩)
    (e4 : isw.2.boundary = ⟨b.x, b.y + b.height.tdiv 2, b.width.tdiv 2, b.height.tdiv 2⟩)
    (d2 : nw.boundary = ⟨b.x, b.y, b.width.tdiv 2, b.height.tdiv 2⟩)
    (d3 : se.boundary =
      ⟨b.x + b.width.tdiv 2, b.y + b.height.tdiv 2, b.width.tdiv 2, b.height.tdiv 2⟩)
    (d4 : sw.boundary = ⟨b.x, b.y + b.height.tdiv 2, b.width.tdiv 2, b.height.tdiv 2⟩)
    (h1 : Quadrants ine.2) (h2 : Quadrants inw.2) (h3 : Quadrants ise.2) (h4 : Quadrants isw.2)
    (g2 : Quadrants nw) (g3 : Quadrants se) (g4 : Quadrants sw) :
    Quadrants (tryChildren b bl nw se sw ine inw ise isw).2 := by
  unfold tryChildren
  split_ifs <;> exact ⟨by assumption, by assumption, by assumption, by assumption,
    by assumption, by assumption, by assumption, by assumption⟩

theorem quadrants_insert (bs : List Ball) (t : QuadTree) (p : Nat) (h : Quadrants t) :
    Quadrants (insert bs t p).2 := by
  induction t with
  | leaf b bl =>
    rw [insert.eq_1]
    split_ifs
    · exact h
    · exact trivial
    · exact quadrants_tryChildren b bl _ _ _ _ _ _ _ (quadrants_insertNew _ _ _).2
        (quadrants_insertNew _ _ _).2 (quadrants_insertNew _ _ _).2 (quadrants_insertNew _ _ _).2
        rfl rfl rfl (quadrants_insertNew _ _ _).1 (quadrants_insertNew _ _ _).1
        (quadrants_insertNew _ _ _).1 (quadrants_insertNew _ _ _).1 trivial trivial trivial
  | branch b bl ne nw se sw ih1 ih2 ih3 ih4 =>
    obtain ⟨e1, e2, e3, e4, q1, q2, q3, q4⟩ := h
    rw [insert.eq_2]
    split_ifs
    · exact ⟨e1, e2, e3, e4, q1, q2, q3, q4⟩
    · exact ⟨e1, e2, e3, e4, q1, q2, q3, q4⟩
    · exact quadrants_tryChildren b bl _ _ _ _ _ _ _ (by rw [insert_boundary, e1])
        (by rw [insert_boundary, e2]) (by rw [insert_boundary, e3]) (by rw [insert_boundary, e4])
        e2 e3 e4 (ih1 q1) (ih2 q2) (ih3 q3) (ih4 q4) q2 q3 q4

theorem onBoundaryLine_insertNew (bs : List Ball) (r : Rectangle) (p : Nat) (ball : Ball) :
    (insertNew bs r p).2.onBoundaryLine ball = r.onLine ball := by
  unfold insertNew
  split_ifs <;> rfl

theorem onBoundaryLine_tryChildren (b : Rectangle) (bl : List Nat) (ne nw se sw : QuadTree)
    (ine inw ise isw : Bool × QuadTree) (ball : Ball)
    (h1 : ne.onBoundaryLine ball = true → ine.2.onBoundaryLine ball = true)
    (h2 : nw.onBoundaryLine ball = true → inw.2.onBoundaryLine ball = true)
    (h3 : se.onBoundaryLine ball = true → ise.2.onBoundaryLine ball = true)
    (h4 : sw.onBoundaryLine ball = true → isw.2.onBoundaryLine ball = true)
    (h : (branch b bl ne nw se sw).onBoundaryLine ball = true) :
    (tryChildren b bl nw se sw ine inw ise isw).2.onBoundaryLine ball = true := by
  unfold tryChildren
  rw [onBoundaryLine_branch] at h
  split_ifs <;> rw [onBoundaryLine_branch] <;> rcases h with h | h | h | h | h
  all_goals first
    | exact Or.inl h
    | exact Or.inr (Or.inl (h1 h))
    | exact Or.inr (Or.inr (Or.inl (h2 h)))
    | exact Or.inr (Or.inr (Or.inl h))
    | exact Or.inr (Or.inr (Or.inr (Or.inl (h3 h))))
    | exact Or.inr (Or.inr (Or.inr (Or.inl h)))
    | exact Or.inr (Or.inr (Or.inr (Or.inr (h4 h))))
    | exact Or.inr (Or.inr (Or.inr (Or.inr h)))

/-- Inserting never removes a boundary line. -/
theorem onBoundaryLine_insert (bs : List Ball) (t : QuadTree) (p : Nat) (ball : Ball)
    (h : t.onBoundaryLine ball = true) : (insert bs t p).2.onBoundaryLine ball = true := by
  induction t with
  | leaf b bl =>
    rw [insert.eq_1]
    split_ifs
    · exact h
    · exact h
    · have hb : b.onLine ball = true := h
      dsimp only
      unfold tryChildren
      split_ifs <;> rw [onBoundaryLine_branch] <;> exact Or.inl hb
  | branch b bl ne nw se sw ih1 ih2 ih3 ih4 =>
    rw [insert.eq_2]
    split_ifs
    · exact h
    · exact h
    · exact onBoundaryLine_tryChildren b bl ne nw se sw _ _ _ _ ball ih1 ih2 ih3 ih4 h

theorem onBoundaryLine_insertSeq (bs : List Ball) (t : QuadTree) (ps : List Nat) (ball : Ball)
    (h : t.onBoundaryLine ball = true) : (insertSeq bs t ps).onBoundaryLine ball = true := by
  induction ps generalizing t with
  | nil => exact h
  | cons p ps ih => exact ih _ (onBoundaryLine_insert bs t p ball h)

/-- A ball strictly inside the root rectangle that is on no boundary line of the
final tree has been stored by its insertion. -/
theorem mem_refs_of_not_onBoundaryLine (bs : List Ball) (t : QuadTree) (ps : List Nat)
    (p : Nat) (hq : Quadrants t) (hp : p ∈ ps)
    (hin : t.boundary.containsBall (deref bs p) = true)
    (hline : (insertSeq bs t ps).onBoundaryLine (deref bs p) = false) :
    p ∈ refs (insertSeq bs t ps) := by
  induction ps generalizing t with
  | nil => simp at hp
  | cons q qs ih =>
    rw [insertSeq_cons] at hline ⊢
    by_cases hpq : p = q
    · subst hpq
      by_cases hr : (insert bs t p).1 = true
      · exact mem_refs_insertSeq_of_mem _ _ _ _ ((mem_refs_insert _ _ _ _).2 (Or.inr ⟨hr, rfl⟩))
      · rcases insert_false bs t p hq (by simpa using hr) with h1 | h1
        · rw [hin] at h1
          exact absurd h1 (by decide)
        · have := onBoundaryLine_insertSeq bs _ qs _ h1
          rw [hline] at this
          exact absurd this (by decide)
    · have hp' : p ∈ qs := by
        rcases List.mem_cons.1 hp with h | h
        · exact absurd h hpq
        · exact h
      exact ih _ (quadrants_insert bs t q hq) hp' (by rw [insert_boundary]; exact hin) hline

end QuadTree

/-! ### Runs taken one statement at a time -/

theorem makeDecision_eq_steps (width height : Int) (draws : Nat → Draw)
    (s : List Ball × QuadTree) :
    makeDecision width height draws s =
      step width height Op.check (step width height Op.insertAll
        (step width height (Op.move draws) (step width height Op.reset s))) := rfl

theorem runOps_four_mul (width height : Int) (draws : Nat → Nat → Draw) (n : Nat)
    (s : List Ball × QuadTree) :
    runOps width height draws (4 * n) s = runTicks width height draws n s := by
  induction n with
  | zero => rfl
  | succ n ih =>
    have e : 4 * (n + 1) = 4 * n + 1 + 1 + 1 + 1 := by omega
    rw [e]
    simp only [runOps, runTicks, ih, makeDecision_eq_steps]
    have h0 : opAt draws (4 * n) = Op.reset := by simp [opAt]
    have h1 : opAt draws (4 * n + 1) = Op.move (draws n) := by
      have : (4 * n + 1) / 4 = n := by omega
      simp [opAt, Nat.add_mod, this]
    have h2 : opAt draws (4 * n + 1 + 1) = Op.insertAll := by
      have : (4 * n + 1 + 1) % 4 = 2 := by omega
      simp [opAt, this]
    have h3 : opAt draws (4 * n + 1 + 1 + 1) = Op.check := by
      have : (4 * n + 1 + 1 + 1) % 4 = 3 := by omega
      simp [opAt, this]
    rw [h0, h1, h2, h3]

theorem isDead_iff (bs : List Ball) (i : Nat) :
    isDead bs i = true ↔ ∃ b, bs[i]? = some b ∧ b.type = "dead" := by
  unfold isDead
  cases bs[i]? <;> simp

theorem isDead_iff_deref (bs : List Ball) (i : Nat) :
    isDead bs i = true ↔ i < bs.length ∧ (deref bs i).type = "dead" := by
  rw [isDead_iff, deref_eq]
  by_cases hi : i < bs.length
  · simp [List.getElem?_eq_getElem hi, hi]
  · simp [List.getElem?_eq_none (Nat.le_of_not_lt hi), hi]

theorem isDead_moveBalls (width height : Int) (draws : Nat → Draw) (bs : List Ball) (i : Nat)
    (h : isDead bs i = true) : isDead (moveBalls width height draws bs) i = true := by
  rw [isDead_iff] at h ⊢
  obtain ⟨b, hb, hd⟩ := h
  exact ⟨_, by rw [moveBalls_getElem?, hb]; rfl, by rw [moveBall_type]; exact hd⟩

theorem isDead_checkCollisions (bs : List Ball) (t : QuadTree) (i : Nat)
    (h : isDead bs i = true) : isDead (checkCollisions bs t) i = true := by
  rw [isDead_iff] at h ⊢
  obtain ⟨b, hb, hd⟩ := h
  refine ⟨_, by rw [checkCollisions_getElem?, hb]; rfl, ?_⟩
  split_ifs
  · rfl
  · exact hd

theorem isDead_step (width height : Int) (op : Op) (s : List Ball × QuadTree) (i : Nat)
    (h : isDead s.1 i = true) : isDead (step width height op s).1 i = true := by
  cases op with
  | reset => exact h
  | move draws => exact isDead_moveBalls _ _ _ _ _ h
  | insertAll => exact h
  | check => exact isDead_checkCollisions _ _ _ h

theorem isDead_runOps (width height : Int) (draws : Nat → Nat → Draw)
    (s : List Ball × QuadTree) (i j k : Nat) (hjk : j ≤ k)
    (h : isDead (runOps width height draws j s).1 i = true) :
    isDead (runOps width height draws k s).1 i = true := by
  induction k with
  | zero =>
    have : j = 0 := by omega
    subst this
    exact h
  | succ k ih =>
    by_cases hj : j = k + 1
    · subst hj
      exact h
    · exact isDead_step _ _ _ _ _ (ih (by omega))

/-! ### Movement bound -/

theorem clamp_bounds (lo hi v : Int) (h : lo ≤ hi) :
    lo ≤ Ball.clamp lo hi v ∧ Ball.clamp lo hi v ≤ hi := by
  unfold Ball.clamp
  dsimp only
  split_ifs <;> omega

theorem move_position (width height : Int) (b : Ball) :
    ∃ v w, (b.move width height).position =
      (Ball.clamp (b.diameter.tdiv 2) (width - b.diameter.tdiv 2) v,
        Ball.clamp (b.diameter.tdiv 2) (height - b.diameter.tdiv 2) w) := by
  exact ⟨_, _, rfl⟩

theorem moveBall_position (width height : Int) (x : Draw) (b : Ball) (h : b.type ≠ "dead") :
    ∃ v w, (moveBall width height x b).position =
      (Ball.clamp (b.diameter.tdiv 2) (width - b.diameter.tdiv 2) v,
        Ball.clamp (b.diameter.tdiv 2) (height - b.diameter.tdiv 2) w) := by
  unfold moveBall
  cases x <;> simp only [h, ne_eq, not_false_eq_true, if_true] <;> exact move_position _ _ _

theorem radius_le (d dim : Int) (h0 : 0 ≤ dim) (h : d ≤ dim) : d.tdiv 2 ≤ dim - d.tdiv 2 := by
  rcases le_total 0 d with hd | hd
  · have := (tdiv_two_bounds d).1 hd
    omega
  · have := (tdiv_two_bounds d).2 hd
    omega

theorem moveBall_bounds (width height : Int) (x : Draw) (b : Ball) (h : b.type ≠ "dead")
    (hw0 : 0 ≤ width) (hh0 : 0 ≤ height) (hw : b.diameter ≤ width) (hh : b.diameter ≤ height) :
    (b.diameter.tdiv 2 ≤ (moveBall width height x b).position.1 ∧
      (moveBall width height x b).position.1 ≤ width - b.diameter.tdiv 2) ∧
    (b.diameter.tdiv 2 ≤ (moveBall width height x b).position.2 ∧
      (moveBall width height x b).position.2 ≤ height - b.diameter.tdiv 2) := by
  obtain ⟨v, w, e⟩ := moveBall_position width height x b h
  rw [e]
  exact ⟨clamp_bounds _ _ _ (radius_le _ _ hw0 hw), clamp_bounds _ _ _ (radius_le _ _ hh0 hh)⟩

/-! ### Completeness of detection -/

/-- The wrapped square of a wrapped difference does not depend on the order of
the two operands. -/
theorem wrap32_neg_sq (u v : Int) (h : u = -v) :
    wrap32 (wrap32 u * wrap32 u) = wrap32 (wrap32 v * wrap32 v) := by
  subst h
  have key : ∀ a b : Int, (a - b) % 4294967296 = 0 → wrap32 a = wrap32 b := by
    intro a b hab
    unfold wrap32
    omega
  apply key
  have h1 : ∃ k : Int, wrap32 (-v) = -v + 4294967296 * k := by
    refine ⟨-((-v + 2147483648) / 4294967296), ?_⟩
    unfold wrap32
    omega
  have h2 : ∃ k : Int, wrap32 v = v + 4294967296 * k := by
    refine ⟨-((v + 2147483648) / 4294967296), ?_⟩
    unfold wrap32
    omega
  obtain ⟨k1, e1⟩ := h1
  obtain ⟨k2, e2⟩ := h2
  rw [e1, e2]
  have : (-v + 4294967296 * k1) * (-v + 4294967296 * k1) -
      (v + 4294967296 * k2) * (v + 4294967296 * k2) =
      4294967296 *
        (-2 * v * k1 + 4294967296 * k1 * k1 - 2 * v * k2 - 4294967296 * k2 * k2) := by
    ring
  rw [this]
  exact Int.mul_emod_right _ _

theorem overlap_comm (a o : Ball) : overlap a o = overlap o a := by
  unfold overlap
  have e1 := wrap32_neg_sq (a.position.1 - o.position.1) (o.position.1 - a.position.1)
    (by ring)
  have e2 := wrap32_neg_sq (a.position.2 - o.position.2) (o.position.2 - a.position.2)
    (by ring)
  simp only [e1, e2, add_comm a.diameter o.diameter]

theorem dead_of_detect (bs : List Ball) (t : QuadTree) (k : Nat)
    (h : (detect bs t).getD k false = true) : (deref (checkCollisions bs t) k).type = "dead" := by
  rw [deref_checkCollisions, h]
  rfl

/-- A detected pair is dead after `checkCollisions`. -/
theorem dead_of_hit (bs : List Ball) (t : QuadTree) (i o : Nat) (hi : i < bs.length)
    (ho : o < bs.length) (h : Hit bs t i o) :
    (deref (checkCollisions bs t) i).type = "dead" ∧
      (deref (checkCollisions bs t) o).type = "dead" :=
  ⟨dead_of_detect bs t i ((detect_getD bs t i).2 ⟨hi, i, hi, o, h, Or.inl rfl⟩),
    dead_of_detect bs t o ((detect_getD bs t o).2 ⟨ho, i, hi, o, h, Or.inr rfl⟩)⟩

theorem hit_of_window (bs : List Ball) (t : QuadTree) (i j : Nat) (hI : QuadTree.Inside bs t)
    (hij : i ≠ j) (hai : (deref bs i).type ≠ "dead") (haj : (deref bs j).type ≠ "dead")
    (hjt : j ∈ t.refs) (hwin : (rangeOf (deref bs i)).containsBall (deref bs j) = true)
    (hov : overlap (deref bs i) (deref bs j) = true) : Hit bs t i j := by
  refine ⟨hai, ?_, Ne.symm hij, haj, hov⟩
  rw [QuadTree.query_eq_filter bs t _ _ hI]
  simp only [List.nil_append, List.mem_filter]
  exact ⟨hjt, hwin⟩

/-- Completeness of `checkCollisions` for a pair stored in the tree, one of which
lies in the query rectangle of the other. -/
theorem dead_of_overlap (bs : List Ball) (t : QuadTree) (i j : Nat) (hI : QuadTree.Inside bs t)
    (hi : i < bs.length) (hj : j < bs.length)
    (hij : i ≠ j) (hai : (deref bs i).type ≠ "dead") (haj : (deref bs j).type ≠ "dead")
    (hit : i ∈ t.refs) (hjt : j ∈ t.refs)
    (hwin : (rangeOf (deref bs i)).containsBall (deref bs j) = true ∨
      (rangeOf (deref bs j)).containsBall (deref bs i) = true)
    (hov : overlap (deref bs i) (deref bs j) = true) :
    (deref (checkCollisions bs t) i).type = "dead" ∧
      (deref (checkCollisions bs t) j).type = "dead" := by
  rcases hwin with hwin | hwin
  · exact dead_of_hit bs t i j hi hj (hit_of_window bs t i j hI hij hai haj hjt hwin hov)
  · have := dead_of_hit bs t j i hj hi
      (hit_of_window bs t j i hI (Ne.symm hij) haj hai hit hwin (by rw [overlap_comm]; exact hov))
    exact ⟨this.2, this.1⟩

theorem tickTree_eq (width height : Int) (moved : List Ball) :
    tickTree width height moved =
      insertSeq moved (QuadTree.new ⟨0, 0, width, height⟩) (List.range moved.length) := by
  rw [tickTree, insertBallsIntoQuadTree_eq]

theorem inside_tickTree (width height : Int) (moved : List Ball) :
    QuadTree.Inside moved (tickTree width height moved) := by
  rw [tickTree_eq]
  exact QuadTree.inside_insertSeq _ _ _ (QuadTree.inside_new _ _)

theorem mem_refs_tickTree_lt (width height : Int) (moved : List Ball) (p : Nat)
    (h : p ∈ (tickTree width height moved).refs) : p < moved.length := by
  rw [tickTree_eq] at h
  rcases QuadTree.mem_refs_insertSeq _ _ _ _ h with h | h
  · simp [QuadTree.new, QuadTree.refs] at h
  · exact List.mem_range.1 h

theorem mem_refs_tickTree (width height : Int) (moved : List Ball) (p : Nat)
    (hp : p < moved.length)
    (hx : 0 ≤ (deref moved p).position.1 ∧ (deref moved p).position.1 ≤ width)
    (hy : 0 ≤ (deref moved p).position.2 ∧ (deref moved p).position.2 ≤ height)
    (hline : (tickTree width height moved).onBoundaryLine (deref moved p) = false) :
    p ∈ (tickTree width height moved).refs := by
  rw [tickTree_eq] at hline ⊢
  have hroot : Rectangle.onLine ⟨0, 0, width, height⟩ (deref moved p) = false := by
    by_contra hc
    have h1 := QuadTree.onBoundaryLine_root
      (insertSeq moved (QuadTree.new ⟨0, 0, width, height⟩) (List.range moved.length))
      (deref moved p) (by rw [QuadTree.insertSeq_boundary]; simpa using hc)
    rw [hline] at h1
    exact absurd h1 (by decide)
  apply QuadTree.mem_refs_of_not_onBoundaryLine _ _ _ _ (QuadTree.quadrants_new _)
    (List.mem_range.2 hp) _ hline
  simp only [Rectangle.onLine, decide_eq_false_iff_not] at hroot
  simp only [QuadTree.new, QuadTree.boundary, Rectangle.containsBall, decide_eq_true_eq]
  omega

theorem makeDecision_fst (width height : Int) (draws : Nat → Draw) (s : List Ball × QuadTree) :
    (makeDecision width height draws s).1 =
      checkCollisions (moveBalls width height draws s.1)
        (tickTree width height (moveBalls width height draws s.1)) := rfl

theorem makeDecision_snd (width height : Int) (draws : Nat → Draw) (s : List Ball × QuadTree) :
    (makeDecision width height draws s).2 =
      tickTree width height (moveBalls width height draws s.1) := rfl

/-- Completeness of one tick, for two balls of the moved store. -/
theorem tick_dead_of_overlap (width height : Int) (draws : Nat → Draw)
    (s : List Ball × QuadTree) (i j : Nat)
    (hi : i < s.1.length) (hj : j < s.1.length) (hij : i ≠ j)
    (hai : (deref (moveBalls width height draws s.1) i).type ≠ "dead")
    (haj : (deref (moveBalls width height draws s.1) j).type ≠ "dead")
    (hxi : 0 ≤ (deref (moveBalls width height draws s.1) i).position.1 ∧
      (deref (moveBalls width height draws s.1) i).position.1 ≤ width)
    (hyi : 0 ≤ (deref (moveBalls width height draws s.1) i).position.2 ∧
      (deref (moveBalls width height draws s.1) i).position.2 ≤ height)
    (hxj : 0 ≤ (deref (moveBalls width height draws s.1) j).position.1 ∧
      (deref (moveBalls width height draws s.1) j).position.1 ≤ width)
    (hyj : 0 ≤ (deref (moveBalls width height draws s.1) j).position.2 ∧
      (deref (moveBalls width height draws s.1) j).position.2 ≤ height)
    (hli : (makeDecision width height draws s).2.onBoundaryLine
      (deref (moveBalls width height draws s.1) i) = false)
    (hlj : (makeDecision width height draws s).2.onBoundaryLine
      (deref (moveBalls width height draws s.1) j) = false)
    (hov : overlap (deref (moveBalls width height draws s.1) i)
      (deref (moveBalls width height draws s.1) j) = true)
    (hwin : (rangeOf (deref (moveBalls width height draws s.1) i)).containsBall
        (deref (moveBalls width height draws s.1) j) = true ∨
      (rangeOf (deref (moveBalls width height draws s.1) j)).containsBall
        (deref (moveBalls width height draws s.1) i) = true) :
    (deref (makeDecision width height draws s).1 i).type = "dead" ∧
      (deref (makeDecision width height draws s).1 j).type = "dead" := by
  rw [makeDecision_snd] at hli hlj
  rw [makeDecision_fst]
  have hlen := moveBalls_length width height draws s.1
  exact dead_of_overlap _ _ i j (inside_tickTree _ _ _) (by omega) (by omega) hij hai haj
    (mem_refs_tickTree _ _ _ _ (by omega) hxi hyi hli)
    (mem_refs_tickTree _ _ _ _ (by omega) hxj hyj hlj) hwin hov

/-! ### One-ball and two-ball stores -/

theorem advance_speed_zero (direction : Int) (p : Int × Int) : Ball.advance direction 0 p = p := by
  unfold Ball.advance
  split_ifs <;> simp

theorem clamp_of_mem (lo hi v : Int) (h1 : lo ≤ v) (h2 : v ≤ hi) : Ball.clamp lo hi v = v := by
  unfold Ball.clamp
  dsimp only
  split_ifs <;> omega

theorem move_still (width height : Int) (b : Ball) (hs : b.speed = 0)
    (hx : b.diameter.tdiv 2 ≤ b.position.1 ∧ b.position.1 ≤ width - b.diameter.tdiv 2)
    (hy : b.diameter.tdiv 2 ≤ b.position.2 ∧ b.position.2 ≤ height - b.diameter.tdiv 2) :
    (b.move width height).position = b.position := by
  simp only [Ball.move, hs, advance_speed_zero, clamp_of_mem _ _ _ hx.1 hx.2,
    clamp_of_mem _ _ _ hy.1 hy.2]

theorem moveBall_still (width height : Int) (x : Draw) (b : Ball) (hs : b.speed = 0)
    (hx : b.diameter.tdiv 2 ≤ b.position.1 ∧ b.position.1 ≤ width - b.diameter.tdiv 2)
    (hy : b.diameter.tdiv 2 ≤ b.position.2 ∧ b.position.2 ≤ height - b.diameter.tdiv 2) :
    (moveBall width height x b).position = b.position := by
  unfold moveBall
  cases x <;> dsimp only <;> split_ifs <;> first | rfl | exact move_still _ _ _ hs hx hy

theorem checkCollisions_eq_self (bs : List Ball) (t : QuadTree)
    (h : ∀ i o, i < bs.length → ¬ Hit bs t i o) : checkCollisions bs t = bs := by
  apply commitFrom_eq_self
  intro k
  by_contra hc
  have hc : (detect bs t).getD k false = true := by simpa using hc
  obtain ⟨_, i, hi, o, hit, _⟩ := (detect_getD bs t k).1 hc
  exact h i o hi hit

theorem mem_query_tickTree_lt (width height : Int) (moved : List Ball) (range : Rectangle)
    (o : Nat) (h : o ∈ (tickTree width height moved).query moved range []) :
    o < moved.length := by
  rcases QuadTree.mem_query _ _ _ _ _ h with h | h
  · simp at h
  · exact mem_refs_tickTree_lt _ _ _ _ h.1

/-- A store with one ball is left as it is by the detection of a tick. -/
theorem checkCollisions_single (width height : Int) (m : Ball) :
    checkCollisions [m] (tickTree width height [m]) = [m] := by
  apply checkCollisions_eq_self
  intro i o hi hit
  have ho := mem_query_tickTree_lt _ _ _ _ _ hit.2.1
  have := hit.2.2.1
  simp only [List.length_singleton] at hi ho
  omega

theorem makeDecision_single (width height : Int) (draws : Nat → Draw) (b : Ball)
    (t : QuadTree) :
    (makeDecision width height draws ([b], t)).1 = [moveBall width height (draws 0) b] := by
  rw [makeDecision_fst]
  exact checkCollisions_single _ _ _

theorem runTicks_single (draws : Nat → Nat → Draw) (n : Nat) (b : Ball) (t0 : QuadTree)
    (hd : b.diameter = 10) (halive : b.type ≠ "dead")
    (hx : 5 ≤ b.position.1 ∧ b.position.1 ≤ 45) (hy : 5 ≤ b.position.2 ∧ b.position.2 ≤ 45) :
    ∃ b', (runTicks 50 50 draws n ([b], t0)).1 = [b'] ∧ b'.diameter = 10 ∧ b'.type ≠ "dead" ∧
      (5 ≤ b'.position.1 ∧ b'.position.1 ≤ 45) ∧ (5 ≤ b'.position.2 ∧ b'.position.2 ≤ 45) := by
  induction n with
  | zero => exact ⟨b, rfl, hd, halive, hx, hy⟩
  | succ n ih =>
    obtain ⟨c, hc, hcd, hca, _, _⟩ := ih
    refine ⟨moveBall 50 50 (draws n 0) c, ?_, ?_, ?_, ?_⟩
    · show (makeDecision 50 50 (draws n) (runTicks 50 50 draws n ([b], t0))).1 = _
      have e : runTicks 50 50 draws n ([b], t0) = ([c], (runTicks 50 50 draws n ([b], t0)).2) := by
        rw [← hc]
      rw [e, makeDecision_single]
    · rw [moveBall_diameter, hcd]
    · rw [moveBall_type]
      exact hca
    · have hb := moveBall_bounds 50 50 (draws n 0) c hca (by decide) (by decide)
        (by rw [hcd]; decide) (by rw [hcd]; decide)
      rw [hcd] at hb
      have e5 : Int.tdiv 10 2 = 5 := by decide
      rw [e5] at hb
      have e45 : (50 : Int) - 5 = 45 := by decide
      rw [e45] at hb
      exact hb

/-! ### Subdivision -/

theorem subdivide_children (t : QuadTree) :
    (QuadTree.subdivide t).children =
      [QuadTree.new ⟨t.boundary.x + t.boundary.width.tdiv 2, t.boundary.y,
          t.boundary.width.tdiv 2, t.boundary.height.tdiv 2⟩,
        QuadTree.new ⟨t.boundary.x, t.boundary.y,
          t.boundary.width.tdiv 2, t.boundary.height.tdiv 2⟩,
        QuadTree.new ⟨t.boundary.x + t.boundary.width.tdiv 2,
          t.boundary.y + t.boundary.height.tdiv 2,
          t.boundary.width.tdiv 2, t.boundary.height.tdiv 2⟩,
        QuadTree.new ⟨t.boundary.x, t.boundary.y + t.boundary.height.tdiv 2,
          t.boundary.width.tdiv 2, t.boundary.height.tdiv 2⟩] := rfl

theorem boundary_new (r : Rectangle) : (QuadTree.new r).boundary = r := rfl

theorem subdivide_geometry_aux (t : QuadTree) (hw : 0 ≤ t.boundary.width)
    (hh : 0 ≤ t.boundary.height) :
    (QuadTree.subdivide t).divided = true ∧
    (QuadTree.subdivide t).children.length = 4 ∧
    (∀ c ∈ (QuadTree.subdivide t).children,
      c.boundary.width = t.boundary.width / 2 ∧ c.boundary.height = t.boundary.height / 2 ∧
        c.boundary.within t.boundary) ∧
    (QuadTree.subdivide t).children.Pairwise (fun c d =>
      ∀ ball : Ball, ¬ (c.boundary.containsBall ball = true ∧ d.boundary.containsBall ball = true)) := by
  refine ⟨rfl, rfl, ?_, ?_⟩
  · intro c hc
    rw [subdivide_children] at hc
    have e1 := tdiv_two_of_nonneg hw
    have e2 := tdiv_two_of_nonneg hh
    simp only [List.mem_cons, List.mem_singleton, List.not_mem_nil, or_false] at hc
    generalize t.boundary = b at *
    rcases hc with rfl | rfl | rfl | rfl <;>
      simp only [boundary_new, Rectangle.within, e1, e2, true_and] <;> omega
  · rw [subdivide_children]
    simp only [List.pairwise_cons, List.mem_cons, List.mem_singleton, List.not_mem_nil,
      forall_eq_or_imp, forall_eq, boundary_new, Rectangle.containsBall,
      decide_eq_true_eq, List.Pairwise.nil, and_true, IsEmpty.forall_iff, implies_true]
    generalize t.boundary = b
    generalize b.width.tdiv 2 = w
    generalize b.height.tdiv 2 = h
    refine ⟨⟨?_, ?_, ?_⟩, ⟨?_, ?_⟩, ?_⟩ <;> intro ball <;> omega

/-! ### Five clustered balls -/

namespace QuadTree

theorem insertSeq_four (bs : List Ball) (r : Rectangle) (r0 r1 r2 r3 : Nat)
    (h0 : r.containsBall (deref bs r0) = true) (h1 : r.containsBall (deref bs r1) = true)
    (h2 : r.containsBall (deref bs r2) = true) (h3 : r.containsBall (deref bs r3) = true) :
    insertSeq bs (new r) [r0, r1, r2, r3] = leaf r [r0, r1, r2, r3] := by
  simp [insertSeq, QuadTree.insert, new, CAPACITY, h0, h1, h2, h3]

theorem arena_quadrants (ball : Ball)
    (hx : 0 < ball.position.1 ∧ ball.position.1 < 1000)
    (hy : 0 < ball.position.2 ∧ ball.position.2 < 1000) :
    Rectangle.containsBall ⟨0, 0, 1000, 1000⟩ ball = true ∧
    Rectangle.containsBall ⟨500, 0, 500, 500⟩ ball =
      decide (500 < ball.position.1 ∧ ball.position.2 < 500) ∧
    Rectangle.containsBall ⟨0, 0, 500, 500⟩ ball =
      decide (ball.position.1 < 500 ∧ ball.position.2 < 500) ∧
    Rectangle.containsBall ⟨500, 500, 500, 500⟩ ball =
      decide (500 < ball.position.1 ∧ 500 < ball.position.2) ∧
    Rectangle.containsBall ⟨0, 500, 500, 500⟩ ball =
      decide (ball.position.1 < 500 ∧ 500 < ball.position.2) := by
  simp only [Rectangle.containsBall, decide_eq_true_eq, decide_eq_decide]
  omega

theorem scenario_C_aux (bs : List Ball) (r0 r1 r2 r3 r4 : Nat)
    (hin : ∀ p ∈ [r0, r1, r2, r3, r4],
      (0 < (deref bs p).position.1 ∧ (deref bs p).position.1 < 1000) ∧
      (0 < (deref bs p).position.2 ∧ (deref bs p).position.2 < 1000)) :
    (insertSeq bs (new ⟨0, 0, 1000, 1000⟩) [r0, r1, r2, r3, r4]).divided = true ∧
    (insertSeq bs (new ⟨0, 0, 1000, 1000⟩) [r0, r1, r2, r3, r4]).query bs ⟨0, 0, 1000, 1000⟩ [] =
      [r0, r1, r2, r3] ++
        (if (deref bs r4).position.1 = 500 ∨ (deref bs r4).position.2 = 500 then [] else [r4]) := by
  have g0 := arena_quadrants (deref bs r0) (hin r0 (by simp)).1 (hin r0 (by simp)).2
  have g1 := arena_quadrants (deref bs r1) (hin r1 (by simp)).1 (hin r1 (by simp)).2
  have g2 := arena_quadrants (deref bs r2) (hin r2 (by simp)).1 (hin r2 (by simp)).2
  have g3 := arena_quadrants (deref bs r3) (hin r3 (by simp)).1 (hin r3 (by simp)).2
  obtain ⟨c0, c1, c2, c3, c4⟩ := arena_quadrants (deref bs r4) (hin r4 (by simp)).1 (hin r4 (by simp)).2
  have hsplit : [r0, r1, r2, r3, r4] = [r0, r1, r2, r3] ++ [r4] := rfl
  have e500 : Int.tdiv 1000 2 = 500 := by decide
  rw [hsplit, insertSeq_append, insertSeq_four bs _ r0 r1 r2 r3 g0.1 g1.1 g2.1 g3.1,
    insertSeq_cons, insertSeq_nil, insert_leaf_full bs _ _ r4 c0 (by simp [CAPACITY])]
  simp only [e500, Int.zero_add, Int.add_zero]
  have hself : Rectangle.intersects ⟨0, 0, 1000, 1000⟩ ⟨0, 0, 1000, 1000⟩ = true := by decide
  have i1 : Rectangle.intersects ⟨500, 0, 500, 500⟩ ⟨0, 0, 1000, 1000⟩ = true := by decide
  have i2 : Rectangle.intersects ⟨0, 0, 500, 500⟩ ⟨0, 0, 1000, 1000⟩ = true := by decide
  have i3 : Rectangle.intersects ⟨500, 500, 500, 500⟩ ⟨0, 0, 1000, 1000⟩ = true := by decide
  have i4 : Rectangle.intersects ⟨0, 500, 500, 500⟩ ⟨0, 0, 1000, 1000⟩ = true := by decide
  rcases lt_trichotomy (deref bs r4).position.1 500 with hx | hx | hx <;>
    rcases lt_trichotomy (deref bs r4).position.2 500 with hy | hy | hy <;>
    simp [tryChildren, insertNew, new, c0, c1, c2, c3, c4, hx, hy, query, divided, hself, i1, i2,
      i3, i4, g0.1, g1.1, g2.1, g3.1, List.filter, not_lt_of_gt, ne_of_lt, ne_of_gt, le_of_lt]

end QuadTree

theorem moveBalls_pair (width height : Int) (draws : Nat → Draw) (p1 p2 : Ball) :
    moveBalls width height draws [p1, p2] =
      [moveBall width height (draws 0) p1, moveBall width height (draws 1) p2] := rfl

theorem tickTree_pair (width height : Int) (m1 m2 : Ball)
    (h1 : Rectangle.containsBall ⟨0, 0, width, height⟩ m1 = true)
    (h2 : Rectangle.containsBall ⟨0, 0, width, height⟩ m2 = true) :
    tickTree width height [m1, m2] = QuadTree.leaf ⟨0, 0, width, height⟩ [0, 1] := by
  simp [tickTree, insertBallsIntoQuadTree, insertBallsFrom, QuadTree.insert, QuadTree.new,
    deref, h1, h2, CAPACITY]

/-- Scenario A on the moved store: two alive balls of diameter 10 at (40,50) and
(45,50) are both dead after the detection of a tick in the 100 x 100 arena. -/
theorem scenario_A_aux (draws : Nat → Draw) (p1 p2 : Ball) (t0 : QuadTree)
    (hd1 : p1.diameter = 10) (hp1 : p1.position = (40, 50)) (hs1 : p1.speed = 0)
    (ha1 : p1.type ≠ "dead")
    (hd2 : p2.diameter = 10) (hp2 : p2.position = (45, 50)) (hs2 : p2.speed = 0)
    (ha2 : p2.type ≠ "dead") :
    (deref (makeDecision 100 100 draws ([p1, p2], t0)).1 0).type = "dead" ∧
      (deref (makeDecision 100 100 draws ([p1, p2], t0)).1 1).type = "dead" := by
  have e5 : Int.tdiv 10 2 = 5 := by decide
  have q1 : (moveBall 100 100 (draws 0) p1).position = (40, 50) := by
    rw [moveBall_still 100 100 _ p1 hs1 (by rw [hd1, hp1, e5]; decide)
      (by rw [hd1, hp1, e5]; decide), hp1]
  have q2 : (moveBall 100 100 (draws 1) p2).position = (45, 50) := by
    rw [moveBall_still 100 100 _ p2 hs2 (by rw [hd2, hp2, e5]; decide)
      (by rw [hd2, hp2, e5]; decide), hp2]
  have d1 : (moveBall 100 100 (draws 0) p1).diameter = 10 := by rw [moveBall_diameter, hd1]
  have d2 : (moveBall 100 100 (draws 1) p2).diameter = 10 := by rw [moveBall_diameter, hd2]
  have a1 : (moveBall 100 100 (draws 0) p1).type ≠ "dead" := by rw [moveBall_type]; exact ha1
  have a2 : (moveBall 100 100 (draws 1) p2).type ≠ "dead" := by rw [moveBall_type]; exact ha2
  have c1 : Rectangle.containsBall ⟨0, 0, 100, 100⟩ (moveBall 100 100 (draws 0) p1) = true := by
    simp [Rectangle.containsBall, q1]
  have c2 : Rectangle.containsBall ⟨0, 0, 100, 100⟩ (moveBall 100 100 (draws 1) p2) = true := by
    simp [Rectangle.containsBall, q2]
  have hm := moveBalls_pair 100 100 draws p1 p2
  have g0 : deref (moveBalls 100 100 draws [p1, p2]) 0 = moveBall 100 100 (draws 0) p1 := by
    rw [hm]; rfl
  have g1 : deref (moveBalls 100 100 draws [p1, p2]) 1 = moveBall 100 100 (draws 1) p2 := by
    rw [hm]; rfl
  have ht : (makeDecision 100 100 draws ([p1, p2], t0)).2 =
      QuadTree.leaf ⟨0, 0, 100, 100⟩ [0, 1] := by
    rw [makeDecision_snd]
    show tickTree 100 100 (moveBalls 100 100 draws [p1, p2]) = _
    rw [hm]
    exact tickTree_pair 100 100 _ _ c1 c2
  apply tick_dead_of_overlap 100 100 draws ([p1, p2], t0) 0 1 (by simp) (by simp) (by decide)
  · show (deref (moveBalls 100 100 draws [p1, p2]) 0).type ≠ "dead"
    rw [g0]; exact a1
  · show (deref (moveBalls 100 100 draws [p1, p2]) 1).type ≠ "dead"
    rw [g1]; exact a2
  · show 0 ≤ (deref (moveBalls 100 100 draws [p1, p2]) 0).position.1 ∧ _
    rw [g0, q1]; decide
  · show 0 ≤ (deref (moveBalls 100 100 draws [p1, p2]) 0).position.2 ∧ _
    rw [g0, q1]; decide
  · show 0 ≤ (deref (moveBalls 100 100 draws [p1, p2]) 1).position.1 ∧ _
    rw [g1, q2]; decide
  · show 0 ≤ (deref (moveBalls 100 100 draws [p1, p2]) 1).position.2 ∧ _
    rw [g1, q2]; decide
  · rw [ht]
    show Rectangle.onLine _ (deref (moveBalls 100 100 draws [p1, p2]) 0) = false
    rw [g0]
    simp [Rectangle.onLine, q1]
  · rw [ht]
    show Rectangle.onLine _ (deref (moveBalls 100 100 draws [p1, p2]) 1) = false
    rw [g1]
    simp [Rectangle.onLine, q2]
  · show overlap (deref (moveBalls 100 100 draws [p1, p2]) 0)
      (deref (moveBalls 100 100 draws [p1, p2]) 1) = true
    rw [g0, g1]
    simp only [overlap, q1, q2, d1, d2]
    decide
  · left
    show (rangeOf (deref (moveBalls 100 100 draws [p1, p2]) 0)).containsBall
      (deref (moveBalls 100 100 draws [p1, p2]) 1) = true
    rw [g0, g1]
    simp only [rangeOf, Rectangle.containsBall, q1, q2, d1]
    decide

namespace QuadTree

theorem nodeAt_nil (t : QuadTree) : nodeAt t [] = some t := by
  cases t <;> rfl

/-! ### Subdivide called twice -/

theorem subdivide_subdivide (t : QuadTree) : subdivide (subdivide t) = subdivide t := by
  cases t <;> rfl

theorem subdivide_eq_self_iff (t : QuadTree) :
    subdivide t = t ↔
      t.divided = true ∧
      t.children =
        [new ⟨t.boundary.x + t.boundary.width.tdiv 2, t.boundary.y,
            t.boundary.width.tdiv 2, t.boundary.height.tdiv 2⟩,
          new ⟨t.boundary.x, t.boundary.y,
            t.boundary.width.tdiv 2, t.boundary.height.tdiv 2⟩,
          new ⟨t.boundary.x + t.boundary.width.tdiv 2,
            t.boundary.y + t.boundary.height.tdiv 2,
            t.boundary.width.tdiv 2, t.boundary.height.tdiv 2⟩,
          new ⟨t.boundary.x, t.boundary.y + t.boundary.height.tdiv 2,
            t.boundary.width.tdiv 2, t.boundary.height.tdiv 2⟩] := by
  cases t with
  | leaf b bl => simp [subdivide, divided]
  | branch b bl ne nw se sw =>
    simp only [subdivide, boundary, balls, divided, children, branch.injEq, true_and,
      List.cons.injEq, and_true]
    constructor
    · rintro ⟨h1, h2, h3, h4⟩
      exact ⟨h1.symm, h2.symm, h3.symm, h4.symm⟩
    · rintro ⟨h1, h2, h3, h4⟩
      exact ⟨h1.symm, h2.symm, h3.symm, h4.symm⟩

/-! ### Capacity -/

theorem capped_new (r : Rectangle) : Capped (new r) := by
  simp [new, Capped]

theorem capped_insertNew (bs : List Ball) (r : Rectangle) (p : Nat) :
    Capped (insertNew bs r p).2 := by
  unfold insertNew
  split_ifs <;> simp [new, Capped, CAPACITY]

theorem capped_tryChildren (b : Rectangle) (bl : List Nat) (nw se sw : QuadTree)
    (ine inw ise isw : Bool × QuadTree) (hbl : bl.length ≤ CAPACITY)
    (h1 : Capped ine.2) (h2 : Capped inw.2) (h3 : Capped ise.2) (h4 : Capped isw.2)
    (g2 : Capped nw) (g3 : Capped se) (g4 : Capped sw) :
    Capped (tryChildren b bl nw se sw ine inw ise isw).2 := by
  unfold tryChildren
  split_ifs <;> exact ⟨hbl, by assumption, by assumption, by assumption, by assumption⟩

theorem capped_insert (bs : List Ball) (t : QuadTree) (p : Nat) (h : Capped t) :
    Capped (insert bs t p).2 := by
  induction t with
  | leaf b bl =>
    by_cases hin : b.containsBall (deref bs p) = true
    · by_cases hcap : bl.length < CAPACITY
      · have : insert bs (leaf b bl) p = (true, leaf b (bl ++ [p])) := by
          simp [insert, hin, hcap]
        rw [this]
        show (bl ++ [p]).length ≤ CAPACITY
        simp only [List.length_append, List.length_singleton]
        omega
      · rw [insert_leaf_full bs b bl p hin hcap]
        exact capped_tryChildren b bl _ _ _ _ _ _ _ h (capped_insertNew _ _ _)
          (capped_insertNew _ _ _) (capped_insertNew _ _ _) (capped_insertNew _ _ _)
          (capped_new _) (capped_new _) (capped_new _)
    · rw [insert_outside bs (leaf b bl) p (by simpa [boundary] using hin)]
      exact h
  | branch b bl ne nw se sw ih1 ih2 ih3 ih4 =>
    obtain ⟨hbl, g1, g2, g3, g4⟩ := h
    by_cases hin : b.containsBall (deref bs p) = true
    · by_cases hcap : bl.length < CAPACITY
      · have : insert bs (branch b bl ne nw se sw) p =
            (true, branch b (bl ++ [p]) ne nw se sw) := by
          simp [insert, hin, hcap]
        rw [this]
        refine ⟨?_, g1, g2, g3, g4⟩
        simp only [List.length_append, List.length_singleton]
        omega
      · rw [insert_branch_full bs b bl ne nw se sw p hin hcap]
        exact capped_tryChildren b bl _ _ _ _ _ _ _ hbl (ih1 g1) (ih2 g2) (ih3 g3) (ih4 g4)
          g2 g3 g4
    · rw [insert_outside bs (branch b bl ne nw se sw) p (by simpa [boundary] using hin)]
      exact ⟨hbl, g1, g2, g3, g4⟩

theorem capped_insertSeq (bs : List Ball) (t : QuadTree) (ps : List Nat) (h : Capped t) :
    Capped (insertSeq bs t ps) := by
  induction ps generalizing t with
  | nil => exact h
  | cons p ps ih => exact ih _ (capped_insert bs t p h)

theorem capped_nodeAt (t : QuadTree) (path : List Nat) (n : QuadTree) (h : Capped t)
    (hn : nodeAt t path = some n) : n.balls.length ≤ CAPACITY := by
  induction t generalizing path with
  | leaf b bl =>
    cases path with
    | nil =>
      simp only [nodeAt, Option.some.injEq] at hn
      subst hn
      exact h
    | cons k ks => simp [nodeAt] at hn
  | branch b bl ne nw se sw ih1 ih2 ih3 ih4 =>
    cases path with
    | nil =>
      simp only [nodeAt, Option.some.injEq] at hn
      subst hn
      exact h.1
    | cons k ks =>
      simp only [nodeAt] at hn
      split_ifs at hn
      · exact ih1 ks h.2.1 hn
      · exact ih2 ks h.2.2.1 hn
      · exact ih3 ks h.2.2.2.1 hn
      · exact ih4 ks h.2.2.2.2 hn

theorem insert_divided (bs : List Ball) (t : QuadTree) (p : Nat) (h : t.divided = true) :
    (insert bs t p).2.divided = true := by
  cases t with
  | leaf b bl => simp [divided] at h
  | branch b bl ne nw se sw =>
    rw [insert.eq_2]
    unfold tryChildren
    split_ifs <;> rfl

theorem nodeAt_tryChildren (b : Rectangle) (bl : List Nat) (ne nw se sw : QuadTree)
    (ine inw ise isw : Bool × QuadTree) (k : Nat) (ks : List Nat) (n : QuadTree)
    (h1 : ∀ n, nodeAt ne ks = some n → ∃ n', nodeAt ine.2 ks = some n' ∧ (n.divided = true → n'.divided = true))
    (h2 : ∀ n, nodeAt nw ks = some n → ∃ n', nodeAt inw.2 ks = some n' ∧ (n.divided = true → n'.divided = true))
    (h3 : ∀ n, nodeAt se ks = some n → ∃ n', nodeAt ise.2 ks = some n' ∧ (n.divided = true → n'.divided = true))
    (h4 : ∀ n, nodeAt sw ks = some n → ∃ n', nodeAt isw.2 ks = some n' ∧ (n.divided = true → n'.divided = true))
    (hn : nodeAt (branch b bl ne nw se sw) (k :: ks) = some n) :
    ∃ n', nodeAt (tryChildren b bl nw se sw ine inw ise isw).2 (k :: ks) = some n' ∧
      (n.divided = true → n'.divided = true) := by
  simp only [nodeAt] at hn
  unfold tryChildren
  by_cases k0 : k = 0
  · simp only [k0, if_true] at hn
    split_ifs <;> simp only [nodeAt, k0, if_true] <;> exact h1 n hn
  · simp only [k0, if_false] at hn
    by_cases k1 : k = 1
    · simp only [k1, if_true] at hn
      split_ifs <;> simp only [nodeAt, k1, if_true, if_false, one_ne_zero] <;>
        first | exact h2 n hn | exact ⟨n, hn, id⟩
    · simp only [k1, if_false] at hn
      by_cases k2 : k = 2
      · simp only [k2, if_true] at hn
        split_ifs <;> simp only [nodeAt, k2, if_true, if_false, OfNat.ofNat_ne_zero,
          OfNat.ofNat_ne_one] <;>
          first | exact h3 n hn | exact ⟨n, hn, id⟩
      · simp only [k2, if_false] at hn
        by_cases k3 : k = 3
        · simp only [k3, if_true] at hn
          split_ifs <;> simp only [nodeAt, k0, k1, k2, k3, if_true, if_false] <;>
            first | exact h4 n hn | exact ⟨n, hn, id⟩
        · simp only [k3, if_false] at hn
          exact absurd hn (by simp)

/-- Inserting keeps every node in place and keeps divided nodes divided. -/
theorem nodeAt_insert (bs : List Ball) (t : QuadTree) (p : Nat) (path : List Nat) (n : QuadTree)
    (hn : nodeAt t path = some n) :
    ∃ n', nodeAt (insert bs t p).2 path = some n' ∧ (n.divided = true → n'.divided = true) := by
  induction t generalizing path n with
  | leaf b bl =>
    cases path with
    | nil =>
      rw [nodeAt_nil, Option.some.injEq] at hn
      subst hn
      exact ⟨_, nodeAt_nil _, fun h => by simp [divided] at h⟩
    | cons k ks => simp [nodeAt] at hn
  | branch b bl ne nw se sw ih1 ih2 ih3 ih4 =>
    cases path with
    | nil =>
      rw [nodeAt_nil, Option.some.injEq] at hn
      subst hn
      exact ⟨_, nodeAt_nil _, fun _ => insert_divided bs (branch b bl ne nw se sw) p rfl⟩
    | cons k ks =>
      rw [insert.eq_2]
      split_ifs
      · exact ⟨n, hn, id⟩
      · refine ⟨n, ?_, id⟩
        simpa only [nodeAt] using hn
      · exact nodeAt_tryChildren b bl ne nw se sw _ _ _ _ k ks n (fun n h => ih1 ks n h)
          (fun n h => ih2 ks n h) (fun n h => ih3 ks n h) (fun n h => ih4 ks n h) hn

theorem nodeAt_insertSeq (bs : List Ball) (t : QuadTree) (ps : List Nat) (path : List Nat)
    (n : QuadTree) (hn : nodeAt t path = some n) :
    ∃ n', nodeAt (insertSeq bs t ps) path = some n' ∧ (n.divided = true → n'.divided = true) := by
  induction ps generalizing t n with
  | nil => exact ⟨n, hn, id⟩
  | cons p ps ih =>
    obtain ⟨m, hm, hd⟩ := nodeAt_insert bs t p path n hn
    obtain ⟨m', hm', hd'⟩ := ih _ m hm
    exact ⟨m', hm', fun h => hd' (hd h)⟩

/-! ### The query as the specification words it -/

theorem filter_balls_of_not_intersects (bs : List Ball) (t : QuadTree) (range : Rectangle)
    (h : Inside bs t) (hno : t.boundary.intersects range = false) :
    t.balls.filter (fun ball => range.containsBall (deref bs ball)) = [] := by
  rw [List.filter_eq_nil_iff]
  intro q hq hc
  have hmem : q ∈ refs t := by
    cases t <;> simp_all [refs, balls]
  have := intersects_of_common_ball _ range _ (h.top q hmem) hc
  rw [hno] at this
  exact absurd this (by decide)

theorem querySpec_eq_query (bs : List Ball) (t : QuadTree) (range : Rectangle)
    (found : List Nat) (h : Inside bs t) :
    querySpec bs t range found = query bs t range found := by
  induction t generalizing found with
  | leaf b bl =>
    by_cases hi : b.intersects range = true
    · simp [querySpec, query, hi]
    · have := filter_balls_of_not_intersects bs (leaf b bl) range h (by simpa [boundary] using hi)
      simp only [balls] at this
      simp [querySpec, query, hi, this]
  | branch b bl ne nw se sw ih1 ih2 ih3 ih4 =>
    by_cases hi : b.intersects range = true
    · obtain ⟨_, g1, g2, g3, g4⟩ := h
      simp only [querySpec, query, hi, if_true, Bool.not_true, Bool.false_eq_true, if_false]
      rw [ih1 _ g1, ih2 _ g2, ih3 _ g3, ih4 _ g4]
    · have := filter_balls_of_not_intersects bs (branch b bl ne nw se sw) range h
        (by simpa [boundary] using hi)
      simp only [balls] at this
      simp [querySpec, query, hi, this]

end QuadTree

/-! ### Movement of dead balls -/

theorem moveBall_dead (width height : Int) (x : Draw) (b : Ball) (h : b.type = "dead") :
    moveBall width height x b = { b with direction := turnDirection x b.direction } := by
  unfold moveBall
  cases x <;> exact if_neg (not_not.mpr h)

/-! ### Creation -/

theorem createBallsFrom_zero_width (height diameter : Int) (type : String)
    (rands : Nat → Int) (n done : Nat) (balls : List Ball) :
    createBallsFrom 0 height diameter type rands (n + 1) done balls = none := by
  simp [createBallsFrom]

theorem createBallsFrom_zero_height (width diameter : Int) (type : String)
    (rands : Nat → Int) (n done : Nat) (balls : List Ball) :
    createBallsFrom width 0 diameter type rands (n + 1) done balls = none := by
  simp [createBallsFrom]

/-- With non-zero width and height `createBalls` returns: it appends `n` balls of
the given diameter and type and keeps the balls already there. -/
theorem createBallsFrom_some (width height diameter : Int) (type : String)
    (rands : Nat → Int) (n done : Nat) (balls : List Ball) (hw : width ≠ 0) (hh : height ≠ 0) :
    ∃ store, createBallsFrom width height diameter type rands n done balls = some store ∧
      store.length = balls.length + n ∧
      (∀ k, k < balls.length → store[k]? = balls[k]?) ∧
      (∀ k, balls.length ≤ k → k < balls.length + n →
        ∃ b, store[k]? = some b ∧ b.diameter = diameter ∧ b.type = type) := by
  induction n generalizing done balls with
  | zero =>
    exact ⟨balls, rfl, rfl, fun _ _ => rfl, fun k h1 h2 => absurd h2 (by omega)⟩
  | succ n ih =>
    simp only [createBallsFrom, hw, hh, if_false]
    obtain ⟨store, e, hlen, hkeep, hnew⟩ := ih (done + 1)
      (balls ++ [Ball.create diameter ((rands (3 * done)).tmod width)
        ((rands (3 * done + 1)).tmod height) type (1 / 50) ((rands (3 * done + 2)).tmod 8)])
    simp only [List.length_append, List.length_singleton] at hlen hkeep hnew
    refine ⟨store, e, by omega, ?_, ?_⟩
    · intro k hk
      rw [hkeep k (by omega), List.getElem?_append_left hk]
    · intro k h1 h2
      by_cases hk : k = balls.length
      · subst hk
        refine ⟨Ball.create diameter ((rands (3 * done)).tmod width)
          ((rands (3 * done + 1)).tmod height) type (1 / 50) ((rands (3 * done + 2)).tmod 8),
          ?_, rfl, rfl⟩
        rw [hkeep _ (by omega)]
        simp
      · exact hnew k (by omega) (by omega)

namespace QuadTree

/-! ### Multiplicity of stored references -/

theorem count_refs_insertSeq (bs : List Ball) (t : QuadTree) (ps : List Nat) (q : Nat) :
    (refs (insertSeq bs t ps)).count q = (refs t).count q + insertedCount bs t ps q := by
  induction ps generalizing t with
  | nil => rfl
  | cons p ps ih =>
    rw [insertSeq_cons, ih, insert_count]
    simp only [insertedCount]
    omega

theorem insertedCount_le (bs : List Ball) (t : QuadTree) (ps : List Nat) (q : Nat) :
    insertedCount bs t ps q ≤ ps.count q := by
  induction ps generalizing t with
  | nil => exact Nat.le_refl _
  | cons p ps ih =>
    simp only [insertedCount, List.count_cons]
    have := ih (insert bs t p).2
    by_cases hq : q = p
    · subst hq
      simp only [and_true, beq_self_eq_true, if_true]
      split_ifs <;> omega
    · have hpq : (p == q) = false := by simpa using Ne.symm hq
      simp only [hq, and_false, if_false, hpq, Bool.false_eq_true]
      omega

theorem count_query (bs : List Ball) (t : QuadTree) (range : Rectangle) (q : Nat)
    (h : Inside bs t) :
    (query bs t range []).count q =
      if range.containsBall (deref bs q) = true then (refs t).count q else 0 := by
  rw [query_eq_filter bs t range [] h, List.nil_append]
  split_ifs with hc
  · exact List.count_filter (by simpa using hc)
  · rw [List.count_eq_zero]
    intro hmem
    exact hc (by simpa using (List.mem_filter.1 hmem).2)

theorem refs_new (r : Rectangle) : refs (new r) = [] := rfl

theorem nodup_refs_insertSeq (bs : List Ball) (r : Rectangle) (ps : List Nat)
    (h : ps.Nodup) : (refs (insertSeq bs (new r) ps)).Nodup := by
  rw [List.nodup_iff_count_le_one]
  intro q
  rw [count_refs_insertSeq, refs_new, List.count_nil, Nat.zero_add]
  exact Nat.le_trans (insertedCount_le bs _ ps q) (List.nodup_iff_count_le_one.1 h q)

end QuadTree

/-! ### Soundness of detection -/

theorem sq_le_sq_of_abs (v B : Int) (h1 : -B ≤ v) (h2 : v ≤ B) :
    0 ≤ v * v ∧ v * v ≤ B * B := by
  constructor <;> nlinarith

/-- For two small balls nothing overflows. -/
theorem overlapFits_of_small (a o : Ball) (ha : a.small = true) (ho : o.small = true) :
    overlapFits a o = true := by
  simp only [Ball.small, decide_eq_true_eq] at ha ho
  have hx := sq_le_sq_of_abs (a.position.1 - o.position.1) 32766 (by omega) (by omega)
  have hy := sq_le_sq_of_abs (a.position.2 - o.position.2) 32766 (by omega) (by omega)
  have hr : -46340 ≤ (a.diameter + o.diameter).tdiv 2 ∧
      (a.diameter + o.diameter).tdiv 2 ≤ 46340 := by
    rcases le_total 0 (a.diameter + o.diameter) with h | h
    · have := (tdiv_two_bounds _).1 h
      omega
    · have := (tdiv_two_bounds _).2 h
      omega
  have hc := sq_le_sq_of_abs ((a.diameter + o.diameter).tdiv 2) 46340 hr.1 hr.2
  simp only [overlapFits, fits32, Bool.and_eq_true, decide_eq_true_eq]
  omega

theorem deref_of_getElem? (bs : List Ball) (k : Nat) (b : Ball) (h : bs[k]? = some b) :
    deref bs k = b := by
  rw [deref_eq, h]
  rfl

theorem getElem?_deref (bs : List Ball) (k : Nat) (h : k < bs.length) :
    bs[k]? = some (deref bs k) := by
  rw [deref_eq, List.getElem?_eq_getElem h]
  rfl

namespace QuadTree

/-! ### Insertion with bounded recursion -/

theorem tryChildrenFuel_eq (call : QuadTree → Option (Bool × QuadTree)) (b : Rectangle)
    (bl : List Nat) (ne nw se sw : QuadTree) (ine inw ise isw : Bool × QuadTree)
    (h1 : call ne = some ine) (h2 : call nw = some inw) (h3 : call se = some ise)
    (h4 : call sw = some isw) :
    tryChildrenFuel call b bl ne nw se sw = some (tryChildren b bl nw se sw ine inw ise isw) := by
  unfold tryChildrenFuel tryChildren
  simp only [h1, h2, h3, h4]
  split_ifs <;> rfl

theorem insertFuel_new (bs : List Ball) (fuel : Nat) (r : Rectangle) (p : Nat) :
    insertFuel bs (fuel + 1) (new r) p = some (insertNew bs r p) := by
  simp only [new, insertFuel, insertNew, List.length_nil, CAPACITY, Nat.ofNat_pos, if_true]
  split_ifs <;> rfl

theorem width_of_contains (b : Rectangle) (ball : Ball) (h : b.containsBall ball = true) :
    2 ≤ b.width ∧ 2 ≤ b.height := by
  simp only [Rectangle.containsBall, decide_eq_true_eq] at h
  omega

theorem insert_narrow (bs : List Ball) (t : QuadTree) (p : Nat)
    (h : t.boundary.width ≤ 1 ∨ t.boundary.height ≤ 1) : insert bs t p = (false, t) := by
  apply insert_outside
  by_contra hc
  have := width_of_contains _ _ (by simpa using hc)
  omega

/-- Enough fuel for any tree: one call per level and one for a new child. -/
theorem insertFuel_of_height (bs : List Ball) (t : QuadTree) (p : Nat) (fuel : Nat)
    (h : height t + 1 ≤ fuel) : insertFuel bs fuel t p = some (insert bs t p) := by
  induction t generalizing fuel with
  | leaf b bl =>
    obtain ⟨f, rfl⟩ : ∃ f, fuel = f + 1 := ⟨fuel - 1, by simp only [height] at h; omega⟩
    obtain ⟨g, rfl⟩ : ∃ g, f = g + 1 := ⟨f - 1, by simp only [height] at h; omega⟩
    rw [insertFuel, insert.eq_1]
    split_ifs
    · rfl
    · rfl
    · exact tryChildrenFuel_eq _ _ _ _ _ _ _ _ _ _ _ (insertFuel_new _ _ _ _)
        (insertFuel_new _ _ _ _) (insertFuel_new _ _ _ _) (insertFuel_new _ _ _ _)
  | branch b bl ne nw se sw ih1 ih2 ih3 ih4 =>
    obtain ⟨f, rfl⟩ : ∃ f, fuel = f + 1 := ⟨fuel - 1, by simp only [height] at h; omega⟩
    simp only [height] at h
    rw [insertFuel, insert.eq_2]
    split_ifs
    · rfl
    · rfl
    · exact tryChildrenFuel_eq _ _ _ _ _ _ _ _ _ _ _ (ih1 f (by omega)) (ih2 f (by omega))
        (ih3 f (by omega)) (ih4 f (by omega))

theorem log_half (n : Nat) (h : 2 ≤ n) : Nat.log 2 (n / 2) + 1 = Nat.log 2 n := by
  rw [Nat.log_div_base]
  have : 1 ≤ Nat.log 2 n := Nat.log_pos (by decide) h
  omega

theorem toNat_tdiv_two (a : Int) (h : 0 ≤ a) : (a.tdiv 2).toNat = a.toNat / 2 := by
  rw [tdiv_two_of_nonneg h]
  omega

/-- Enough fuel for a tree whose children are the quadrants of their parents:
the logarithm of the width (`dim = width`) or of the height (`dim = height`). -/
theorem insertFuel_of_log_width (bs : List Ball) (t : QuadTree) (p : Nat) (fuel : Nat)
    (hq : Quadrants t) (h : Nat.log 2 t.boundary.width.toNat + 1 ≤ fuel) :
    insertFuel bs fuel t p = some (insert bs t p) := by
  induction t generalizing fuel with
  | leaf b bl =>
    obtain ⟨f, rfl⟩ : ∃ f, fuel = f + 1 := ⟨fuel - 1, by omega⟩
    by_cases hin : b.containsBall (deref bs p) = true
    · by_cases hcap : bl.length < CAPACITY
      · simp [insertFuel, insert, hin, hcap]
      · have hw := (width_of_contains _ _ hin).1
        have hl : 1 ≤ Nat.log 2 b.width.toNat := Nat.log_pos (by decide) (by omega)
        simp only [boundary] at h
        obtain ⟨g, rfl⟩ : ∃ g, f = g + 1 := ⟨f - 1, by omega⟩
        rw [insert_leaf_full bs b bl p hin hcap, insertFuel]
        simp only [hin, hcap, Bool.not_true, Bool.false_eq_true, if_false]
        exact tryChildrenFuel_eq _ _ _ _ _ _ _ _ _ _ _ (insertFuel_new _ _ _ _)
          (insertFuel_new _ _ _ _) (insertFuel_new _ _ _ _) (insertFuel_new _ _ _ _)
    · simp [insertFuel, insert, hin]
  | branch b bl ne nw se sw ih1 ih2 ih3 ih4 =>
    obtain ⟨f, rfl⟩ : ∃ f, fuel = f + 1 := ⟨fuel - 1, by omega⟩
    obtain ⟨e1, e2, e3, e4, q1, q2, q3, q4⟩ := hq
    by_cases hin : b.containsBall (deref bs p) = true
    · by_cases hcap : bl.length < CAPACITY
      · simp [insertFuel, insert, hin, hcap]
      · have hw := (width_of_contains _ _ hin).1
        simp only [boundary] at h
        have hchild : Nat.log 2 (b.width.tdiv 2).toNat + 1 ≤ f := by
          rw [toNat_tdiv_two _ (by omega), log_half _ (by omega)]
          omega
        rw [insert_branch_full bs b bl ne nw se sw p hin hcap, insertFuel]
        simp only [hin, hcap, Bool.not_true, Bool.false_eq_true, if_false]
        exact tryChildrenFuel_eq _ _ _ _ _ _ _ _ _ _ _
          (ih1 f q1 (by rw [e1]; exact hchild)) (ih2 f q2 (by rw [e2]; exact hchild))
          (ih3 f q3 (by rw [e3]; exact hchild)) (ih4 f q4 (by rw [e4]; exact hchild))
    · simp [insertFuel, insert, hin]

theorem insertFuel_of_log_height (bs : List Ball) (t : QuadTree) (p : Nat) (fuel : Nat)
    (hq : Quadrants t) (h : Nat.log 2 t.boundary.height.toNat + 1 ≤ fuel) :
    insertFuel bs fuel t p = some (insert bs t p) := by
  induction t generalizing fuel with
  | leaf b bl =>
    obtain ⟨f, rfl⟩ : ∃ f, fuel = f + 1 := ⟨fuel - 1, by omega⟩
    by_cases hin : b.containsBall (deref bs p) = true
    · by_cases hcap : bl.length < CAPACITY
      · simp [insertFuel, insert, hin, hcap]
      · have hw := (width_of_contains _ _ hin).2
        have hl : 1 ≤ Nat.log 2 b.height.toNat := Nat.log_pos (by decide) (by omega)
        simp only [boundary] at h
        obtain ⟨g, rfl⟩ : ∃ g, f = g + 1 := ⟨f - 1, by omega⟩
        rw [insert_leaf_full bs b bl p hin hcap, insertFuel]
        simp only [hin, hcap, Bool.not_true, Bool.false_eq_true, if_false]
        exact tryChildrenFuel_eq _ _ _ _ _ _ _ _ _ _ _ (insertFuel_new _ _ _ _)
          (insertFuel_new _ _ _ _) (insertFuel_new _ _ _ _) (insertFuel_new _ _ _ _)
    · simp [insertFuel, insert, hin]
  | branch b bl ne nw se sw ih1 ih2 ih3 ih4 =>
    obtain ⟨f, rfl⟩ : ∃ f, fuel = f + 1 := ⟨fuel - 1, by omega⟩
    obtain ⟨e1, e2, e3, e4, q1, q2, q3, q4⟩ := hq
    by_cases hin : b.containsBall (deref bs p) = true
    · by_cases hcap : bl.length < CAPACITY
      · simp [insertFuel, insert, hin, hcap]
      · have hw := (width_of_contains _ _ hin).2
        simp only [boundary] at h
        have hchild : Nat.log 2 (b.height.tdiv 2).toNat + 1 ≤ f := by
          rw [toNat_tdiv_two _ (by omega), log_half _ (by omega)]
          omega
        rw [insert_branch_full bs b bl ne nw se sw p hin hcap, insertFuel]
        simp only [hin, hcap, Bool.not_true, Bool.false_eq_true, if_false]
        exact tryChildrenFuel_eq _ _ _ _ _ _ _ _ _ _ _
          (ih1 f q1 (by rw [e1]; exact hchild)) (ih2 f q2 (by rw [e2]; exact hchild))
          (ih3 f q3 (by rw [e3]; exact hchild)) (ih4 f q4 (by rw [e4]; exact hchild))
    · simp [insertFuel, insert, hin]

theorem quadrants_insertSeq (bs : List Ball) (t : QuadTree) (ps : List Nat) (h : Quadrants t) :
    Quadrants (insertSeq bs t ps) := by
  induction ps generalizing t with
  | nil => exact h
  | cons p ps ih => exact ih _ (quadrants_insert bs t p h)

end QuadTree

/-! ### The two queries, and shared positions -/

/-- On a tree that holds a reference outside its node's rectangle the two
queries differ: the specification's wording returns the reference, the source
prunes the node. -/
theorem querySpec_ne_query_on_strayTree :
    strayTree.querySpec sampleStore ⟨30, 40, 20, 20⟩ [] = [0] ∧
    strayTree.query sampleStore ⟨30, 40, 20, 20⟩ [] = [] := by
  decide

/-- With eight references to one ball at (1,1) stored in the 4 x 4 arena (four in
the root, four in its north-west child), the ninth insert is rejected by every
grandchild and returns false; two nested calls do not suffice for it, three do. -/
theorem insert_shared_position :
    (QuadTree.insert cornerStore
      (insertSeq cornerStore (QuadTree.new ⟨0, 0, 4, 4⟩) [0, 0, 0, 0, 0, 0, 0, 0]) 0).1 = false ∧
    QuadTree.insertFuel cornerStore 2
      (insertSeq cornerStore (QuadTree.new ⟨0, 0, 4, 4⟩) [0, 0, 0, 0, 0, 0, 0, 0]) 0 = none := by
  decide

/-! ### Order of the iterations of the detection pass -/

theorem flags_ext (l m : List Bool) (hlen : l.length = m.length)
    (h : ∀ k, l.getD k false = true ↔ m.getD k false = true) : l = m := by
  apply List.ext_getElem hlen
  intro k h1 h2
  have hk := h k
  rw [List.getD_eq_getElem _ _ h1, List.getD_eq_getElem _ _ h2] at hk
  cases hl : l[k] <;> cases hm : m[k] <;> simp_all

/-- The detection pass gives the same flag array in whatever order the
iterations of the loop of line 268 run. -/
theorem detect_order_irrelevant (bs : List Ball) (t : QuadTree) (is : List Nat)
    (h : is.Perm (List.range bs.length)) :
    is.foldl (detectBall bs t) (List.replicate bs.length false) = detect bs t := by
  apply flags_ext
  · rw [foldl_detectBall_length, detect_length, List.length_replicate]
  · intro k
    unfold detect
    rw [foldl_detectBall_getD, foldl_detectBall_getD]
    simp only [h.mem_iff]

/-! ## Properties of the specification -/

/-- C1. Completeness of detection, evaluated at a failing input: two balls of
diameter 10 made by the constructor at (40,50) and (50,50), heading east, in the
1500 x 800 arena, no turn drawn. After `moveBalls` they are alive at (41,50) and
(51,50); the index is the single node (0,0,1500,800) holding both, and neither
ball is on a boundary line of it; the test of line 280 holds for the pair
(squared distance 100, combined radius 10). The query around each ball returns
only that ball, and both are alive after the tick. -/
theorem completeness_fails_for_touching_balls :
    (deref (moveBalls 1500 800 (fun _ => Draw.mid) touchingStore) 0).type ≠ "dead" ∧
    (deref (moveBalls 1500 800 (fun _ => Draw.mid) touchingStore) 1).type ≠ "dead" ∧
    (deref (moveBalls 1500 800 (fun _ => Draw.mid) touchingStore) 0).position = (41, 50) ∧
    (deref (moveBalls 1500 800 (fun _ => Draw.mid) touchingStore) 1).position = (51, 50) ∧
    (deref (moveBalls 1500 800 (fun _ => Draw.mid) touchingStore) 0).diameter = 10 ∧
    (deref (moveBalls 1500 800 (fun _ => Draw.mid) touchingStore) 1).diameter = 10 ∧
    (makeDecision 1500 800 (fun _ => Draw.mid) (touchingStore, default)).2 =
      QuadTree.leaf ⟨0, 0, 1500, 800⟩ [0, 1] ∧
    (makeDecision 1500 800 (fun _ => Draw.mid) (touchingStore, default)).2.onBoundaryLine
      (deref (moveBalls 1500 800 (fun _ => Draw.mid) touchingStore) 0) = false ∧
    (makeDecision 1500 800 (fun _ => Draw.mid) (touchingStore, default)).2.onBoundaryLine
      (deref (moveBalls 1500 800 (fun _ => Draw.mid) touchingStore) 1) = false ∧
    overlap (deref (moveBalls 1500 800 (fun _ => Draw.mid) touchingStore) 0)
      (deref (moveBalls 1500 800 (fun _ => Draw.mid) touchingStore) 1) = true ∧
    (makeDecision 1500 800 (fun _ => Draw.mid) (touchingStore, default)).2.query
      (moveBalls 1500 800 (fun _ => Draw.mid) touchingStore)
      (rangeOf (deref (moveBalls 1500 800 (fun _ => Draw.mid) touchingStore) 0)) [] = [0] ∧
    (makeDecision 1500 800 (fun _ => Draw.mid) (touchingStore, default)).2.query
      (moveBalls 1500 800 (fun _ => Draw.mid) touchingStore)
      (rangeOf (deref (moveBalls 1500 800 (fun _ => Draw.mid) touchingStore) 1)) [] = [1] ∧
    isDead (makeDecision 1500 800 (fun _ => Draw.mid) (touchingStore, default)).1 0 = false ∧
    isDead (makeDecision 1500 800 (fun _ => Draw.mid) (touchingStore, default)).1 1 = false := by
  decide

/-- C2. Containment: in a tree built from an empty root with rectangle `r` by
the insert calls for the references `ps` (in order, against a store that is not
changed in between), every reference whose call returned true is in the result
of the query with range `r`. -/
theorem containment_full_arena_query (bs : List Ball) (r : Rectangle) (ps : List Nat) (k : Nat)
    (hk : k < ps.length)
    (hins : (QuadTree.insert bs (insertSeq bs (QuadTree.new r) (ps.take k))
      (ps.get ⟨k, hk⟩)).1 = true) :
    ps.get ⟨k, hk⟩ ∈ (insertSeq bs (QuadTree.new r) ps).query bs r [] :=
  QuadTree.mem_query_of_inserted bs r ps k hk hins

theorem containment_full_arena_query_witness :
    [0, 1, 2, 3, 4].get ⟨4, by decide⟩ ∈
      (insertSeq clusterStore (QuadTree.new ⟨0, 0, 1000, 1000⟩) [0, 1, 2, 3, 4]).query
        clusterStore ⟨0, 0, 1000, 1000⟩ [] :=
  containment_full_arena_query clusterStore ⟨0, 0, 1000, 1000⟩ [0, 1, 2, 3, 4] 4 (by decide)
    (by decide)

/-- C3. Out-of-boundary insertion: when the ball's position is not strictly
inside the node's rectangle, `insert` returns false and leaves the tree as it
was, for every tree; and when the tree is one built from an empty root by insert
calls (the rejected ball possibly among them), no query on it returns the ball. -/
theorem insert_outside_boundary_fails (bs : List Ball) (t : QuadTree) (p : Nat)
    (hout : t.boundary.containsBall (deref bs p) = false) :
    QuadTree.insert bs t p = (false, t) ∧
      ∀ (r : Rectangle) (ps : List Nat), t = insertSeq bs (QuadTree.new r) ps →
        ∀ range : Rectangle, p ∉ t.query bs range [] := by
  refine ⟨QuadTree.insert_outside bs t p hout, ?_⟩
  intro r ps ht range
  subst ht
  rw [QuadTree.insertSeq_boundary] at hout
  exact QuadTree.not_mem_query_of_outside bs r ps p hout range

theorem insert_outside_boundary_fails_witness :
    QuadTree.insert sampleStore (insertSeq sampleStore (QuadTree.new ⟨0, 0, 100, 100⟩) [0, 1, 2]) 2 =
        (false, insertSeq sampleStore (QuadTree.new ⟨0, 0, 100, 100⟩) [0, 1, 2]) ∧
      2 ∉ (insertSeq sampleStore (QuadTree.new ⟨0, 0, 100, 100⟩) [0, 1, 2]).query sampleStore
        ⟨-10, -10, 200, 200⟩ [] :=
  ⟨(insert_outside_boundary_fails sampleStore
      (insertSeq sampleStore (QuadTree.new ⟨0, 0, 100, 100⟩) [0, 1, 2]) 2 (by decide)).1,
    (insert_outside_boundary_fails sampleStore
      (insertSeq sampleStore (QuadTree.new ⟨0, 0, 100, 100⟩) [0, 1, 2]) 2 (by decide)).2
      ⟨0, 0, 100, 100⟩ [0, 1, 2] rfl ⟨-10, -10, 200, 200⟩⟩

/-- C4 (as amended). Scenario C: five references whose balls lie in a 10 x 10
region `[a, a+10] x [b, b+10]` strictly inside the 1000 x 1000 arena are
inserted one after another into an empty root. The root is divided afterwards,
and the full-arena query returns the first four references in insertion order,
followed by the fifth exactly when the fifth ball is neither on the line
x = 500 nor on the line y = 500. -/
theorem scenario_C_fifth_off_seam (bs : List Ball) (r0 r1 r2 r3 r4 : Nat) (a b : Int)
    (ha : 0 < a ∧ a + 10 < 1000) (hb : 0 < b ∧ b + 10 < 1000)
    (hcl : ∀ p ∈ [r0, r1, r2, r3, r4],
      (a ≤ (deref bs p).position.1 ∧ (deref bs p).position.1 ≤ a + 10) ∧
      (b ≤ (deref bs p).position.2 ∧ (deref bs p).position.2 ≤ b + 10)) :
    (insertSeq bs (QuadTree.new ⟨0, 0, 1000, 1000⟩) [r0, r1, r2, r3, r4]).divided = true ∧
    (insertSeq bs (QuadTree.new ⟨0, 0, 1000, 1000⟩) [r0, r1, r2, r3, r4]).query bs
        ⟨0, 0, 1000, 1000⟩ [] =
      [r0, r1, r2, r3] ++
        (if (deref bs r4).position.1 = 500 ∨ (deref bs r4).position.2 = 500 then [] else [r4]) := by
  apply QuadTree.scenario_C_aux
  intro p hp
  have := hcl p hp
  omega

theorem scenario_C_fifth_off_seam_witness :
    (insertSeq clusterStore (QuadTree.new ⟨0, 0, 1000, 1000⟩) [0, 1, 2, 3, 4]).divided = true ∧
    (insertSeq clusterStore (QuadTree.new ⟨0, 0, 1000, 1000⟩) [0, 1, 2, 3, 4]).query clusterStore
        ⟨0, 0, 1000, 1000⟩ [] =
      [0, 1, 2, 3] ++
        (if (deref clusterStore 4).position.1 = 500 ∨ (deref clusterStore 4).position.2 = 500
          then [] else [4]) :=
  scenario_C_fifth_off_seam clusterStore 0 1 2 3 4 200 300 (by decide) (by decide) (by decide)

/-- C4 (counterexample). Five balls at (496,300) .. (500,300), inside the region
`[495, 505] x [295, 305]` of the 1000 x 1000 arena: the fifth insert returns
false and the full-arena query returns four references, not five. -/
theorem scenario_C_fails_on_seam :
    (∀ p ∈ [0, 1, 2, 3, 4],
      ((495 : Int) ≤ (deref seamStore p).position.1 ∧ (deref seamStore p).position.1 ≤ 495 + 10) ∧
      ((295 : Int) ≤ (deref seamStore p).position.2 ∧ (deref seamStore p).position.2 ≤ 295 + 10)) ∧
    (QuadTree.insert seamStore
      (insertSeq seamStore (QuadTree.new ⟨0, 0, 1000, 1000⟩) [0, 1, 2, 3]) 4).1 = false ∧
    (insertSeq seamStore (QuadTree.new ⟨0, 0, 1000, 1000⟩) [0, 1, 2, 3, 4]).query seamStore
      ⟨0, 0, 1000, 1000⟩ [] = [0, 1, 2, 3] := by
  decide

/-- C5. Monotonic death: `runOps` runs the statements of successive
`makeDecision` calls one at a time (tree reset, `moveBalls`,
`insertBallsIntoQuadTree`, `checkCollisions`; four of them make one tick, first
conjunct). A particle that is dead after `j` operations is dead after `k`
operations for every `k ≥ j`. -/
theorem monotonic_death (width height : Int) (draws : Nat → Nat → Draw)
    (s : List Ball × QuadTree) (i j k : Nat) (hjk : j ≤ k)
    (h : isDead (runOps width height draws j s).1 i = true) :
    (∀ n, runOps width height draws (4 * n) s = runTicks width height draws n s) ∧
      isDead (runOps width height draws k s).1 i = true :=
  ⟨fun n => runOps_four_mul width height draws n s,
    isDead_runOps width height draws s i j k hjk h⟩

theorem monotonic_death_witness :
    (∀ n, runOps 100 100 (fun _ _ => Draw.low) (4 * n) (sampleStore, default) =
      runTicks 100 100 (fun _ _ => Draw.low) n (sampleStore, default)) ∧
      isDead (runOps 100 100 (fun _ _ => Draw.low) 6 (sampleStore, default)).1 3 = true :=
  monotonic_death 100 100 (fun _ _ => Draw.low) (sampleStore, default) 3 0 6 (by decide)
    (by decide)

/-- C6. Idempotent re-detection: running `checkCollisions` a second time on the
store left by the first run, with the same index, leaves the store as the first
run left it; in particular no further particle becomes dead. -/
theorem redetection_idempotent (bs : List Ball) (t : QuadTree) :
    checkCollisions (checkCollisions bs t) t = checkCollisions bs t ∧
      ∀ i, isDead (checkCollisions (checkCollisions bs t) t) i = isDead (checkCollisions bs t) i := by
  have h := checkCollisions_twice bs t
  exact ⟨h, fun i => by rw [h]⟩

/-- C7. Movement bound: in an arena of non-negative width and height, each at
least the diameter of the alive particle `b` at index `i`, after `moveBalls` the
particle at index `i` has x in `[diameter/2, width - diameter/2]` and y in
`[diameter/2, height - diameter/2]`, with the source's integer halving, for
every direction of `b` and every outcome of the draws. -/
theorem movement_bound (width height : Int) (draws : Nat → Draw) (bs : List Ball) (i : Nat)
    (b : Ball) (hb : bs[i]? = some b) (halive : b.type ≠ "dead")
    (hw0 : 0 ≤ width) (hh0 : 0 ≤ height) (hw : b.diameter ≤ width) (hh : b.diameter ≤ height) :
    ∃ b', (moveBalls width height draws bs)[i]? = some b' ∧ b'.diameter = b.diameter ∧
      (b.diameter.tdiv 2 ≤ b'.position.1 ∧ b'.position.1 ≤ width - b.diameter.tdiv 2) ∧
      (b.diameter.tdiv 2 ≤ b'.position.2 ∧ b'.position.2 ≤ height - b.diameter.tdiv 2) := by
  refine ⟨moveBall width height (draws i) b, ?_, moveBall_diameter _ _ _ _, ?_⟩
  · rw [moveBalls_getElem?, hb]
    rfl
  · exact moveBall_bounds width height (draws i) b halive hw0 hh0 hw hh

theorem movement_bound_witness :
    ∃ b', (moveBalls 100 100 (fun _ => Draw.high) sampleStore)[1]? = some b' ∧
      b'.diameter = (Ball.create 10 70 20 "aggressive" (1 / 50) 5).diameter ∧
      ((Ball.create 10 70 20 "aggressive" (1 / 50) 5).diameter.tdiv 2 ≤ b'.position.1 ∧
        b'.position.1 ≤ 100 - (Ball.create 10 70 20 "aggressive" (1 / 50) 5).diameter.tdiv 2) ∧
      ((Ball.create 10 70 20 "aggressive" (1 / 50) 5).diameter.tdiv 2 ≤ b'.position.2 ∧
        b'.position.2 ≤ 100 - (Ball.create 10 70 20 "aggressive" (1 / 50) 5).diameter.tdiv 2) :=
  movement_bound 100 100 (fun _ => Draw.high) sampleStore 1
    (Ball.create 10 70 20 "aggressive" (1 / 50) 5) rfl (by decide) (by decide) (by decide)
    (by decide) (by decide)


/-- C8. Scenario A: in the 100 x 100 arena, a store of exactly two alive
particles of diameter 10 and speed 0, the first at (40,50) and the second at
(45,50), holds two dead particles after one `makeDecision`, for every initial
direction and turning parameter of the two and every outcome of the draws. -/
theorem scenario_A_both_dead (draws : Nat → Draw) (p1 p2 : Ball) (t0 : QuadTree)
    (hd1 : p1.diameter = 10) (hp1 : p1.position = (40, 50)) (hs1 : p1.speed = 0)
    (ha1 : p1.type ≠ "dead")
    (hd2 : p2.diameter = 10) (hp2 : p2.position = (45, 50)) (hs2 : p2.speed = 0)
    (ha2 : p2.type ≠ "dead") :
    (makeDecision 100 100 draws ([p1, p2], t0)).1.length = 2 ∧
      isDead (makeDecision 100 100 draws ([p1, p2], t0)).1 0 = true ∧
      isDead (makeDecision 100 100 draws ([p1, p2], t0)).1 1 = true := by
  have h := scenario_A_aux draws p1 p2 t0 hd1 hp1 hs1 ha1 hd2 hp2 hs2 ha2
  have hlen : (makeDecision 100 100 draws ([p1, p2], t0)).1.length = 2 := by
    rw [makeDecision_fst, checkCollisions_length, moveBalls_length]
    rfl
  rw [isDead_iff_deref, isDead_iff_deref, hlen]
  exact ⟨rfl, ⟨by decide, h.1⟩, ⟨by decide, h.2⟩⟩

theorem scenario_A_both_dead_witness :
    (makeDecision 100 100 (fun _ => Draw.high) ([scenarioA1, scenarioA2], default)).1.length = 2 ∧
      isDead (makeDecision 100 100 (fun _ => Draw.high)
        ([scenarioA1, scenarioA2], default)).1 0 = true ∧
      isDead (makeDecision 100 100 (fun _ => Draw.high)
        ([scenarioA1, scenarioA2], default)).1 1 = true :=
  scenario_A_both_dead (fun _ => Draw.high) scenarioA1 scenarioA2 default (by decide) (by decide)
    (by decide) (by decide) (by decide) (by decide) (by decide) (by decide)

/-- C9. Scenario B: a store holding one alive particle of diameter 10 and speed 1
in the 50 x 50 arena, starting with both coordinates in [5, 45]: after `n`
ticks, for every `n`, every initial direction and every outcome of the draws,
the store still holds one particle, it is alive, and both its coordinates are
in [5, 45]. -/
theorem scenario_B_alive_in_bounds (draws : Nat → Nat → Draw) (n : Nat) (b : Ball)
    (t0 : QuadTree) (hd : b.diameter = 10) (hs : b.speed = 1) (halive : b.type ≠ "dead")
    (hx : 5 ≤ b.position.1 ∧ b.position.1 ≤ 45) (hy : 5 ≤ b.position.2 ∧ b.position.2 ≤ 45) :
    ∃ b', (runTicks 50 50 draws n ([b], t0)).1 = [b'] ∧ b'.type ≠ "dead" ∧
      (5 ≤ b'.position.1 ∧ b'.position.1 ≤ 45) ∧ (5 ≤ b'.position.2 ∧ b'.position.2 ≤ 45) := by
  have _ := hs
  obtain ⟨b', h1, _, h2, h3, h4⟩ := runTicks_single draws n b t0 hd halive hx hy
  exact ⟨b', h1, h2, h3, h4⟩

theorem scenario_B_alive_in_bounds_witness :
    ∃ b', (runTicks 50 50 (fun _ _ => Draw.low) 1000 ([scenarioBBall], default)).1 = [b'] ∧
      b'.type ≠ "dead" ∧
      (5 ≤ b'.position.1 ∧ b'.position.1 ≤ 45) ∧ (5 ≤ b'.position.2 ∧ b'.position.2 ≤ 45) :=
  scenario_B_alive_in_bounds (fun _ _ => Draw.low) 1000 scenarioBBall default (by decide)
    (by decide) (by decide) (by decide) (by decide)

/-- C10. Subdivision geometry: for a node whose rectangle has non-negative width
and height, `subdivide` leaves a divided node with four children, each of width
`width / 2` and height `height / 2` and each within the parent's rectangle, and
no ball position is strictly inside two different children. -/
theorem subdivide_geometry (t : QuadTree) (hw : 0 ≤ t.boundary.width)
    (hh : 0 ≤ t.boundary.height) :
    (QuadTree.subdivide t).divided = true ∧
    (QuadTree.subdivide t).children.length = 4 ∧
    (∀ c ∈ (QuadTree.subdivide t).children,
      c.boundary.width = t.boundary.width / 2 ∧ c.boundary.height = t.boundary.height / 2 ∧
        c.boundary.within t.boundary) ∧
    (QuadTree.subdivide t).children.Pairwise (fun c d =>
      ∀ ball : Ball, ¬ (c.boundary.containsBall ball = true ∧ d.boundary.containsBall ball = true)) :=
  subdivide_geometry_aux t hw hh

theorem subdivide_geometry_witness :
    (QuadTree.subdivide (QuadTree.leaf ⟨0, 0, 1500, 801⟩ [0, 1, 2, 3])).divided = true ∧
    (QuadTree.subdivide (QuadTree.leaf ⟨0, 0, 1500, 801⟩ [0, 1, 2, 3])).children.length = 4 ∧
    (∀ c ∈ (QuadTree.subdivide (QuadTree.leaf ⟨0, 0, 1500, 801⟩ [0, 1, 2, 3])).children,
      c.boundary.width = (QuadTree.leaf ⟨0, 0, 1500, 801⟩ [0, 1, 2, 3]).boundary.width / 2 ∧
      c.boundary.height = (QuadTree.leaf ⟨0, 0, 1500, 801⟩ [0, 1, 2, 3]).boundary.height / 2 ∧
        c.boundary.within (QuadTree.leaf ⟨0, 0, 1500, 801⟩ [0, 1, 2, 3]).boundary) ∧
    (QuadTree.subdivide (QuadTree.leaf ⟨0, 0, 1500, 801⟩ [0, 1, 2, 3])).children.Pairwise
      (fun c d => ∀ ball : Ball,
        ¬ (c.boundary.containsBall ball = true ∧ d.boundary.containsBall ball = true)) :=
  subdivide_geometry (QuadTree.leaf ⟨0, 0, 1500, 801⟩ [0, 1, 2, 3]) (by decide) (by decide)

/-- C11 (as amended). `subdivide` called twice in a row: the second call changes
nothing, `subdivide (subdivide t) = subdivide t` for every node `t`. In general
`subdivide` leaves a node as it is exactly when the node is divided and its four
children are the empty, undivided nodes over its four quadrants. `insert`, which
calls `subdivide` only on a node that is not divided (line 134), keeps every
stored reference of the node and its children. -/
theorem subdivide_twice (t : QuadTree) :
    QuadTree.subdivide (QuadTree.subdivide t) = QuadTree.subdivide t ∧
    (QuadTree.subdivide t = t ↔
      t.divided = true ∧
      t.children =
        [QuadTree.new ⟨t.boundary.x + t.boundary.width.tdiv 2, t.boundary.y,
            t.boundary.width.tdiv 2, t.boundary.height.tdiv 2⟩,
          QuadTree.new ⟨t.boundary.x, t.boundary.y,
            t.boundary.width.tdiv 2, t.boundary.height.tdiv 2⟩,
          QuadTree.new ⟨t.boundary.x + t.boundary.width.tdiv 2,
            t.boundary.y + t.boundary.height.tdiv 2,
            t.boundary.width.tdiv 2, t.boundary.height.tdiv 2⟩,
          QuadTree.new ⟨t.boundary.x, t.boundary.y + t.boundary.height.tdiv 2,
            t.boundary.width.tdiv 2, t.boundary.height.tdiv 2⟩]) ∧
    (∀ (bs : List Ball) (p q : Nat),
      (QuadTree.insert bs t p).2.refs.count q =
        t.refs.count q + if (QuadTree.insert bs t p).1 = true ∧ q = p then 1 else 0) :=
  ⟨QuadTree.subdivide_subdivide t, QuadTree.subdivide_eq_self_iff t,
    fun bs p q => QuadTree.insert_count bs t p q⟩

/-- C11 (counterexample). The tree left by inserting the five balls of
`clusterStore` into the empty 1000 x 1000 root is divided and its north-west
child holds reference 4; `subdivide` on it gives a different node, whose
north-west child is empty, so that reference 4 is no longer stored. -/
theorem subdivide_drops_children :
    (insertSeq clusterStore (QuadTree.new ⟨0, 0, 1000, 1000⟩) [0, 1, 2, 3, 4]).divided = true ∧
    (insertSeq clusterStore (QuadTree.new ⟨0, 0, 1000, 1000⟩) [0, 1, 2, 3, 4]).refs =
      [0, 1, 2, 3, 4] ∧
    QuadTree.subdivide (insertSeq clusterStore (QuadTree.new ⟨0, 0, 1000, 1000⟩) [0, 1, 2, 3, 4]) ≠
      insertSeq clusterStore (QuadTree.new ⟨0, 0, 1000, 1000⟩) [0, 1, 2, 3, 4] ∧
    (QuadTree.subdivide
      (insertSeq clusterStore (QuadTree.new ⟨0, 0, 1000, 1000⟩) [0, 1, 2, 3, 4])).refs =
      [0, 1, 2, 3] := by
  decide

/-- C12. Node capacity invariant: in a tree built from an empty root by insert
calls, every node (reached by any path) holds at most `CAPACITY` references, so
a node with more than `CAPACITY` references is divided; and a node that is
divided is still there and divided after any further insert calls. -/
theorem node_capacity_invariant (bs : List Ball) (r : Rectangle) (ps : List Nat)
    (path : List Nat) (n : QuadTree)
    (hn : (insertSeq bs (QuadTree.new r) ps).nodeAt path = some n) :
    n.balls.length ≤ CAPACITY ∧
    (CAPACITY < n.balls.length → n.divided = true) ∧
    (n.divided = true → ∀ qs : List Nat, ∃ n',
      (insertSeq bs (insertSeq bs (QuadTree.new r) ps) qs).nodeAt path = some n' ∧
        n'.divided = true) := by
  have hcap := QuadTree.capped_nodeAt _ path n
    (QuadTree.capped_insertSeq bs _ ps (QuadTree.capped_new r)) hn
  refine ⟨hcap, fun h => absurd hcap (by omega), ?_⟩
  intro hd qs
  obtain ⟨n', h1, h2⟩ := QuadTree.nodeAt_insertSeq bs _ qs path n hn
  exact ⟨n', h1, h2 hd⟩

theorem node_capacity_invariant_witness :
    (QuadTree.branch ⟨0, 0, 1000, 1000⟩ [0, 1, 2, 3]
      (QuadTree.leaf ⟨500, 0, 500, 500⟩ []) (QuadTree.leaf ⟨0, 0, 500, 500⟩ [4])
      (QuadTree.leaf ⟨500, 500, 500, 500⟩ []) (QuadTree.leaf ⟨0, 500, 500, 500⟩ [])).balls.length
        ≤ CAPACITY ∧
    (CAPACITY < (QuadTree.branch ⟨0, 0, 1000, 1000⟩ [0, 1, 2, 3]
      (QuadTree.leaf ⟨500, 0, 500, 500⟩ []) (QuadTree.leaf ⟨0, 0, 500, 500⟩ [4])
      (QuadTree.leaf ⟨500, 500, 500, 500⟩ [])
      (QuadTree.leaf ⟨0, 500, 500, 500⟩ [])).balls.length →
      (QuadTree.branch ⟨0, 0, 1000, 1000⟩ [0, 1, 2, 3]
      (QuadTree.leaf ⟨500, 0, 500, 500⟩ []) (QuadTree.leaf ⟨0, 0, 500, 500⟩ [4])
      (QuadTree.leaf ⟨500, 500, 500, 500⟩ [])
      (QuadTree.leaf ⟨0, 500, 500, 500⟩ [])).divided = true) ∧
    ((QuadTree.branch ⟨0, 0, 1000, 1000⟩ [0, 1, 2, 3]
      (QuadTree.leaf ⟨500, 0, 500, 500⟩ []) (QuadTree.leaf ⟨0, 0, 500, 500⟩ [4])
      (QuadTree.leaf ⟨500, 500, 500, 500⟩ [])
      (QuadTree.leaf ⟨0, 500, 500, 500⟩ [])).divided = true →
      ∀ qs : List Nat, ∃ n',
      (insertSeq clusterStore
        (insertSeq clusterStore (QuadTree.new ⟨0, 0, 1000, 1000⟩) [0, 1, 2, 3, 4]) qs).nodeAt [] =
          some n' ∧ n'.divided = true) :=
  node_capacity_invariant clusterStore ⟨0, 0, 1000, 1000⟩ [0, 1, 2, 3, 4] []
    (QuadTree.branch ⟨0, 0, 1000, 1000⟩ [0, 1, 2, 3]
      (QuadTree.leaf ⟨500, 0, 500, 500⟩ []) (QuadTree.leaf ⟨0, 0, 500, 500⟩ [4])
      (QuadTree.leaf ⟨500, 500, 500, 500⟩ []) (QuadTree.leaf ⟨0, 500, 500, 500⟩ []))
    (by decide)

/-- C13 (as amended). Dead particles in `moveBalls`: the store keeps its length
and order (entry `k` afterwards is `moveBall` of entry `k` before), and a dead
particle keeps its position, diameter, type, speed and turning parameter; its
direction is the one left by the turn of lines 245-250. -/
theorem moveBalls_dead_frame (width height : Int) (draws : Nat → Draw) (bs : List Ball)
    (i : Nat) (b : Ball) (hb : bs[i]? = some b) (hdead : b.type = "dead") :
    (moveBalls width height draws bs).length = bs.length ∧
    (∀ k : Nat, (moveBalls width height draws bs)[k]? =
      bs[k]?.map (moveBall width height (draws k))) ∧
    (moveBalls width height draws bs)[i]? =
      some { b with direction := turnDirection (draws i) b.direction } := by
  refine ⟨moveBalls_length _ _ _ _, fun k => moveBalls_getElem? _ _ _ _ k, ?_⟩
  rw [moveBalls_getElem?, hb, Option.map_some', moveBall_dead _ _ _ _ hdead]

theorem moveBalls_dead_frame_witness :
    (moveBalls 100 100 (fun _ => Draw.mid) sampleStore).length = sampleStore.length ∧
    (∀ k : Nat, (moveBalls 100 100 (fun _ => Draw.mid) sampleStore)[k]? =
      sampleStore[k]?.map (moveBall 100 100 Draw.mid)) ∧
    (moveBalls 100 100 (fun _ => Draw.mid) sampleStore)[3]? =
      some { diameter := 10, position := (20, 20), type := "dead",
             direction := turnDirection Draw.mid 6, turningParameter := 1 / 50, speed := 1 } :=
  moveBalls_dead_frame 100 100 (fun _ => Draw.mid) sampleStore 3
    { diameter := 10, position := (20, 20), type := "dead", direction := 6,
      turningParameter := 1 / 50, speed := 1 } rfl rfl

/-- C13 (counterexample). The dead particle at index 3 of `sampleStore` has
direction 6; after `moveBalls` with the draw below the turning parameter its
direction is 7. -/
theorem moveBalls_turns_dead_ball :
    sampleStore[3]?.map (fun b => (b.type, b.direction)) = some ("dead", 6) ∧
    (moveBalls 100 100 (fun _ => Draw.low) sampleStore)[3]?.map (fun b => (b.type, b.direction)) =
      some ("dead", 7) := by
  decide

/-- C14. Detection frame: `checkCollisions` keeps the length and order of the
store; entry `k` afterwards is entry `k` before with `type` set to "dead" when
flag `k` of the detection pass is set, and unchanged otherwise, so position,
diameter, direction, speed and turning parameter are never written. The flags
are those of the detection pass on the store as it was before the call (`Hit`
reads the alive/dead states of that store), and the commit pass runs on the
finished flag array. The index is only read: the statement of `makeDecision`
that calls `checkCollisions` leaves the tree as it was. -/
theorem detection_frame (width height : Int) (bs : List Ball) (t : QuadTree) (k : Nat) :
    (checkCollisions bs t).length = bs.length ∧
    (checkCollisions bs t)[k]? =
      bs[k]?.map (fun b =>
        if (detect bs t).getD k false then { b with type := "dead" } else b) ∧
    ((detect bs t).getD k false = true ↔
      (k < bs.length ∧ ∃ i, i < bs.length ∧ ∃ o, Hit bs t i o ∧ (k = i ∨ k = o))) ∧
    checkCollisions bs t = commitFrom (detect bs t) 0 bs ∧
    (step width height Op.check (bs, t)).2 = t :=
  ⟨checkCollisions_length bs t, checkCollisions_getElem? bs t k, detect_getD bs t k, rfl, rfl⟩

/-- C15 (as amended). A degenerate configuration is not rejected at setup: for
every arena of non-zero width and height and every diameter larger than an
arena dimension, `createBalls` returns a store; it has appended `numberOfBalls`
particles of that diameter and type and kept the particles already there. -/
theorem createBalls_no_validation (width height numberOfBalls diameter : Int) (type : String)
    (rands : Nat → Int) (balls : List Ball) (hw : width ≠ 0) (hh : height ≠ 0)
    (hdeg : width < diameter ∨ height < diameter) :
    ∃ store, createBalls width height numberOfBalls diameter type rands balls = some store ∧
      store.length = balls.length + numberOfBalls.toNat ∧
      (∀ k, k < balls.length → store[k]? = balls[k]?) ∧
      (∀ k, balls.length ≤ k → k < balls.length + numberOfBalls.toNat →
        ∃ b, store[k]? = some b ∧ b.diameter = diameter ∧ b.type = type) := by
  have _ := hdeg
  exact createBallsFrom_some width height diameter type rands numberOfBalls.toNat 0 balls hw hh

theorem createBalls_no_validation_witness :
    ∃ store, createBalls 5 5 2 10 "normal" (fun k => [7, 3, 12, 9, 4, 1].getD k 0) [] =
        some store ∧
      store.length = ([] : List Ball).length + (2 : Int).toNat ∧
      (∀ k, k < ([] : List Ball).length → store[k]? = ([] : List Ball)[k]?) ∧
      (∀ k, ([] : List Ball).length ≤ k → k < ([] : List Ball).length + (2 : Int).toNat →
        ∃ b, store[k]? = some b ∧ b.diameter = 10 ∧ b.type = "normal") :=
  createBalls_no_validation 5 5 2 10 "normal" (fun k => [7, 3, 12, 9, 4, 1].getD k 0) []
    (by decide) (by decide) (by decide)

/-- C15 (counterexample). In a 5 x 5 arena `createBalls(2, 10, "normal")` with
`rand()` returning 7, 3, 12, 9, 4, 1 returns a store of two alive particles of
diameter 10 at (2,3) and (4,4); after one `moveBalls` both are at (0,0), below
the lower clamp bound 5. -/
theorem createBalls_accepts_degenerate :
    (createBalls 5 5 2 10 "normal"
      (fun k => [7, 3, 12, 9, 4, 1].getD k 0) []).map
        (fun store => store.map (fun b => (b.diameter, b.position, b.type))) =
      some [(10, (2, 3), "normal"), (10, (4, 4), "normal")] ∧
    (createBalls 5 5 2 10 "normal"
      (fun k => [7, 3, 12, 9, 4, 1].getD k 0) []).map
        (fun store => (moveBalls 5 5 (fun _ => Draw.mid) store).map (fun b => b.position)) =
      some [(0, 0), (0, 0)] := by
  decide

/-- C17. Query order refinement: on every tree built from an empty root by
insert calls, the query as the specification words it (`querySpec`: own
references first, children only if the node's rectangle intersects the range)
and the query of the source (`query`: nothing at all unless the node's rectangle
intersects the range) give the same list, for every range and every list
already found. -/
theorem query_refines_spec (bs : List Ball) (r : Rectangle) (ps : List Nat)
    (range : Rectangle) (found : List Nat) :
    (insertSeq bs (QuadTree.new r) ps).querySpec bs range found =
      (insertSeq bs (QuadTree.new r) ps).query bs range found :=
  QuadTree.querySpec_eq_query bs _ range found
    (QuadTree.inside_insertSeq bs _ ps (QuadTree.inside_new bs r))

/-- C18. Query exactness: for a tree built from an empty root with rectangle `r`
by the insert calls for `ps`, the query returns the stored references whose
ball is strictly inside the range, in the order of `refs` (nothing is lost to
the pruning by `intersects`); a reference is stored as many times as calls for
it returned true, and returned by the query that many times when its ball is
inside the range and not at all otherwise; that number is at most the number of
calls for it, so when no reference is inserted twice each is stored in one node
only and returned at most once. -/
theorem query_exact (bs : List Ball) (r : Rectangle) (ps : List Nat) (range : Rectangle)
    (q : Nat) :
    (insertSeq bs (QuadTree.new r) ps).query bs range [] =
      (insertSeq bs (QuadTree.new r) ps).refs.filter
        (fun p => range.containsBall (deref bs p)) ∧
    (insertSeq bs (QuadTree.new r) ps).refs.count q = insertedCount bs (QuadTree.new r) ps q ∧
    ((insertSeq bs (QuadTree.new r) ps).query bs range []).count q =
      (if range.containsBall (deref bs q) = true
        then insertedCount bs (QuadTree.new r) ps q else 0) ∧
    insertedCount bs (QuadTree.new r) ps q ≤ ps.count q ∧
    (ps.Nodup → (insertSeq bs (QuadTree.new r) ps).refs.Nodup ∧
      ((insertSeq bs (QuadTree.new r) ps).query bs range []).Nodup) := by
  have hI := QuadTree.inside_insertSeq bs _ ps (QuadTree.inside_new bs r)
  have hq := QuadTree.query_eq_filter bs _ range [] hI
  have hc := QuadTree.count_refs_insertSeq bs (QuadTree.new r) ps q
  rw [QuadTree.refs_new, List.count_nil, Nat.zero_add] at hc
  refine ⟨by simpa using hq, hc, ?_, QuadTree.insertedCount_le bs _ ps q, ?_⟩
  · rw [QuadTree.count_query bs _ range q hI, hc]
  · intro hnd
    have h1 := QuadTree.nodup_refs_insertSeq bs r ps hnd
    refine ⟨h1, ?_⟩
    rw [hq, List.nil_append]
    exact h1.filter _

theorem query_exact_witness :
    (insertSeq clusterStore (QuadTree.new ⟨0, 0, 1000, 1000⟩) [0, 1, 2, 3, 4]).refs.Nodup ∧
      ((insertSeq clusterStore (QuadTree.new ⟨0, 0, 1000, 1000⟩) [0, 1, 2, 3, 4]).query
        clusterStore ⟨190, 290, 15, 15⟩ []).Nodup :=
  (query_exact clusterStore ⟨0, 0, 1000, 1000⟩ [0, 1, 2, 3, 4] ⟨190, 290, 15, 15⟩ 4).2.2.2.2
    (by decide)

/-- C20. Insert terminates: `insertFuel` follows the recursion of the source and
counts nested calls. On every tree `height t + 1` nested calls suffice, so
`insert` returns on every tree and for every ball; on a tree built from an
empty root with rectangle `r` by insert calls, also with many balls at one
position, `log2 (min r.width r.height) + 1` nested calls suffice; and on a node
whose rectangle has width or height at most 1 `insert` returns false and leaves
the node as it is. -/
theorem insert_terminates (bs : List Ball) (t : QuadTree) (r : Rectangle) (ps : List Nat)
    (p fuel : Nat) :
    (t.height + 1 ≤ fuel → QuadTree.insertFuel bs fuel t p = some (QuadTree.insert bs t p)) ∧
    (Nat.log 2 (min r.width r.height).toNat + 1 ≤ fuel →
      QuadTree.insertFuel bs fuel (insertSeq bs (QuadTree.new r) ps) p =
        some (QuadTree.insert bs (insertSeq bs (QuadTree.new r) ps) p)) ∧
    ((t.boundary.width ≤ 1 ∨ t.boundary.height ≤ 1) → QuadTree.insert bs t p = (false, t)) := by
  refine ⟨QuadTree.insertFuel_of_height bs t p fuel, ?_, QuadTree.insert_narrow bs t p⟩
  intro h
  have hq := QuadTree.quadrants_insertSeq bs (QuadTree.new r) ps (QuadTree.quadrants_new r)
  rcases le_total r.width r.height with hwh | hwh
  · rw [min_eq_left hwh] at h
    exact QuadTree.insertFuel_of_log_width bs _ p fuel hq
      (by rw [QuadTree.insertSeq_boundary]; exact h)
  · rw [min_eq_right hwh] at h
    exact QuadTree.insertFuel_of_log_height bs _ p fuel hq
      (by rw [QuadTree.insertSeq_boundary]; exact h)

theorem insert_terminates_witness :
    QuadTree.insertFuel cornerStore 3 (QuadTree.new ⟨0, 0, 1, 1⟩) 0 =
        some (QuadTree.insert cornerStore (QuadTree.new ⟨0, 0, 1, 1⟩) 0) ∧
      QuadTree.insertFuel cornerStore 3
        (insertSeq cornerStore (QuadTree.new ⟨0, 0, 4, 4⟩) [0, 0, 0, 0, 0, 0, 0, 0]) 0 =
        some (QuadTree.insert cornerStore
          (insertSeq cornerStore (QuadTree.new ⟨0, 0, 4, 4⟩) [0, 0, 0, 0, 0, 0, 0, 0]) 0) ∧
      QuadTree.insert cornerStore (QuadTree.new ⟨0, 0, 1, 1⟩) 0 =
        (false, QuadTree.new ⟨0, 0, 1, 1⟩) :=
  ⟨(insert_terminates cornerStore (QuadTree.new ⟨0, 0, 1, 1⟩) ⟨0, 0, 4, 4⟩
      [0, 0, 0, 0, 0, 0, 0, 0] 0 3).1 (by decide),
    (insert_terminates cornerStore (QuadTree.new ⟨0, 0, 1, 1⟩) ⟨0, 0, 4, 4⟩
      [0, 0, 0, 0, 0, 0, 0, 0] 0 3).2.1 (by simp [Nat.log]),
    (insert_terminates cornerStore (QuadTree.new ⟨0, 0, 1, 1⟩) ⟨0, 0, 4, 4⟩
      [0, 0, 0, 0, 0, 0, 0, 0] 0 3).2.2 (by decide)⟩

end BallSim
